import Mathlib

/-!
Verification of the sustained-loudness ("shout") detector of
`src/app/analyze/shout_service.py`.

The detector is shallowly embedded as follows.  The run-detector state
machine, thresholds, millisecond conversions and result assembly are
polymorphic over a `LinearOrderedField` with a `FloorRing` structure
(instantiated at `ℝ` for the full pipeline and at `ℚ` for executable
witnesses).  The per-frame feature extraction (`rms`, `dbfs_from_rms`,
`crest_factor_db`) uses `Real.sqrt` and `Real.logb` over `ℝ`, idealising
IEEE-754 arithmetic by exact real arithmetic.  Python's `int()` on a
nonnegative float is modelled by `Int.floor` (truncation toward zero in
general, `pyInt`), and Python's decimal `round(x, 2)` by round-half-to-even
on the exact value (`pyRound2`).
-/

set_option linter.unusedSectionVars false

namespace Shout

/-- Constant `TARGET_SR = 16_000` of shout_service.py. -/
def TARGET_SR : ℕ := 16000

/-- Constant `WIN_MS = 200` of shout_service.py. -/
def WIN_MS : ℕ := 200

/-- Constant `HOP_MS = 100` of shout_service.py. -/
def HOP_MS : ℕ := 100

/-- Constant `MIN_RUN_MS = 400` of shout_service.py (compared against the
integer `duration_ms`, hence `ℤ`-valued here). -/
def MIN_RUN_MS : ℤ := 400

variable {α : Type} [LinearOrderedField α] [FloorRing α]

/-- Constant `THRESH_DBFS = -18.0` of shout_service.py. -/
def THRESH_DBFS : α := -18

/-- Constant `MAX_CREST_DB = 18.0` of shout_service.py. -/
def MAX_CREST_DB : α := 18

/-- The `ShoutResult` dataclass of shout_service.py: `present` plus five
optional fields (all `None` by default in the source; constructed
explicitly here). -/
structure ShoutResult (α : Type) where
  present : Bool
  start_ms : Option ℤ
  end_ms : Option ℤ
  peak_dbfs : Option α
  duration_seconds : Option α
  confidence : Option α
  deriving DecidableEq

/-- Python `int(x)` on a float: truncation toward zero. -/
def pyInt (x : α) : ℤ := if 0 ≤ x then ⌊x⌋ else -⌊-x⌋

/-- Python `round` to an integer: round half to even (banker's rounding),
on the exact (idealised) value. -/
def pyRoundHalfEven (y : α) : ℤ :=
  if Int.fract y < 1 / 2 then ⌊y⌋
  else if 1 / 2 < Int.fract y then ⌊y⌋ + 1
  else if ⌊y⌋ % 2 = 0 then ⌊y⌋ else ⌊y⌋ + 1

/-- Python `round(x, 2)`: round to 2 decimal places. -/
def pyRound2 (x : α) : α := (pyRoundHalfEven (x * 100) : α) / 100

/-- One entry of the `stats` list of `detect_shout`: frame offset, its
dBFS value and its crest factor in dB.  (The source tuple also carries the
segment itself, which the scan loop never reads.) -/
structure FrameStat (α : Type) where
  idx : ℕ
  db : α
  crest : α
  deriving DecidableEq

/-- The open-run accumulator of the scan loop of `detect_shout`:
`run_start`, `run_end` (sample offsets) and `peak_db`. -/
structure RunState (α : Type) where
  start : ℕ
  stop : ℕ
  peak : α
  deriving DecidableEq

/-- The `np.median` of a list: sort, then take the middle element (odd
length) or the mean of the two middle elements (even length). -/
def medianNp (l : List α) : α :=
  let s := List.insertionSort (fun a b => a ≤ b) l
  if l.length % 2 = 1 then s.getD (l.length / 2) 0
  else (s.getD (l.length / 2 - 1) 0 + s.getD (l.length / 2) 0) / 2

/-- Lines 97-100 of shout_service.py: `median_db` is the median of the
frame dBFS values, or `-120.0` if there are none. -/
def medianDb (dbs : List α) : α := if dbs = [] then -120 else medianNp dbs

/-- Line 102 of shout_service.py:
`dynamic_threshold = min(THRESH_DBFS, median_db + 20.0)`. -/
def dynamicThreshold (dbs : List α) : α := min THRESH_DBFS (medianDb dbs + 20)

/-- Lines 121-123 of shout_service.py: a frame extends a run iff it is
loud (`db >= dynamic_threshold`) and non-impulsive
(`crest_db < MAX_CREST_DB`). -/
def qualifies (dyn : α) (s : FrameStat α) : Prop :=
  dyn ≤ s.db ∧ s.crest < MAX_CREST_DB

instance (dyn : α) (s : FrameStat α) : Decidable (qualifies dyn s) :=
  inferInstanceAs (Decidable (_ ∧ _))

/-- Line 130/159 of shout_service.py:
`duration_ms = int((run_end - run_start) * 1000 / sr)`. -/
def durationMs (sr : ℕ) (r : RunState α) : ℤ :=
  pyInt (((r.stop : α) - (r.start : α)) * 1000 / (sr : α))

/-- The present-`ShoutResult` constructed on emission (lines 146-153 and
175-182 of shout_service.py). -/
def emitResult (sr : ℕ) (r : RunState α) : ShoutResult α :=
  { present := true
    start_ms := some (pyInt ((r.start : α) * 1000 / (sr : α)))
    end_ms := some (pyInt ((r.stop : α) * 1000 / (sr : α)))
    peak_dbfs := some (pyRound2 r.peak)
    duration_seconds := some (pyRound2 ((durationMs sr r : α) / 1000))
    confidence := some 0.6 }

/-- The absent result `ShoutResult(present=False)`: every optional field
is `None`. -/
def absentResult : ShoutResult α := ⟨false, none, none, none, none, none⟩

/-- The scan loop of `detect_shout` (lines 115-186): processes the frame
stats in order with an optional open run.  Entering a run sets
`peak_db = max(peak_db, db)` where `peak_db` is the sentinel `-120.0`
(the source keeps `peak_db` as a separate variable that is `-120.0`
exactly when no run is open; here that invariant is baked into the
`Option`).  A non-qualifying frame closes an open run: emit if the
duration gate passes, otherwise discard and continue from idle.  At the
end of the list a still-open run is checked against the same gate. -/
def scanRuns (sr win : ℕ) (dyn : α) :
    List (FrameStat α) → Option (RunState α) → ShoutResult α
  | [], none => absentResult
  | [], some r =>
      if MIN_RUN_MS ≤ durationMs sr r then emitResult sr r else absentResult
  | s :: rest, none =>
      if qualifies dyn s then
        scanRuns sr win dyn rest (some ⟨s.idx, s.idx + win, max (-120) s.db⟩)
      else scanRuns sr win dyn rest none
  | s :: rest, some r =>
      if qualifies dyn s then
        scanRuns sr win dyn rest (some ⟨r.start, s.idx + win, max r.peak s.db⟩)
      else if MIN_RUN_MS ≤ durationMs sr r then emitResult sr r
      else scanRuns sr win dyn rest none

/-- Folding the run-extension step over a list of frames (used to state
what the accumulator holds after an all-qualifying block). -/
def accumFrom (win : ℕ) (r : RunState α) (l : List (FrameStat α)) : RunState α :=
  l.foldl (fun r s => ⟨r.start, s.idx + win, max r.peak s.db⟩) r

/-- The run state entered from idle on a qualifying frame (lines 124-127
of shout_service.py, with `peak_db = max(-120.0, db)`). -/
def enterRun (win : ℕ) (s : FrameStat α) : RunState α :=
  ⟨s.idx, s.idx + win, max (-120) s.db⟩

/-- The frame offsets of `frame_signal`: `offset = 0; while offset + win
<= len: yield offset; offset += hop`.  The extra fuel argument makes the
recursion structural; `len + 1` units of fuel are enough whenever
`hop ≥ 1`, which holds for every sample rate `≥ 10` Hz. -/
def frameOffsetsAux (len win hop : ℕ) : ℕ → ℕ → List ℕ
  | 0, _ => []
  | fuel + 1, offset =>
      if offset + win ≤ len then
        offset :: frameOffsetsAux len win hop fuel (offset + hop)
      else []

/-- Offsets produced by `frame_signal(signal, sr, win_ms, hop_ms)`. -/
def frameOffsets (len win hop : ℕ) : List ℕ :=
  frameOffsetsAux len win hop (len + 1) 0

/-- Window length `win = int(sr * win_ms / 1000)` of `frame_signal`. -/
def winOf (sr : ℕ) : ℕ := sr * WIN_MS / 1000

/-- Hop length `hop = int(sr * hop_ms / 1000)` of `frame_signal`. -/
def hopOf (sr : ℕ) : ℕ := sr * HOP_MS / 1000

/-- Frame slice `signal[offset : offset + win]`. -/
def frameAt (sig : List ℝ) (o w : ℕ) : List ℝ := (sig.drop o).take w

/-- The `rms` function of shout_service.py:
`sqrt(mean(seg ** 2)) + 1e-9` (exact real arithmetic; an empty segment,
which NumPy would turn into NaN, yields `1e-9` here and never occurs for
the frames actually produced). -/
noncomputable def rms (seg : List ℝ) : ℝ :=
  Real.sqrt ((seg.map (fun x => x ^ 2)).sum / (seg.length : ℝ)) + 1e-9

/-- The peak `float(np.max(np.abs(seg))) + 1e-9` of `crest_factor_db`;
the fold starts at `0`, which agrees with `np.max` on the nonempty
frames of nonnegative absolute values. -/
noncomputable def peakAbs (seg : List ℝ) : ℝ :=
  (seg.map (fun x => |x|)).foldr max 0 + 1e-9

/-- The `crest_factor_db` function of shout_service.py:
`20 * log10(peak / rms + 1e-12)`. -/
noncomputable def crestFactorDb (seg : List ℝ) (rmsVal : ℝ) : ℝ :=
  20 * Real.logb 10 (peakAbs seg / rmsVal + 1e-12)

/-- The `dbfs_from_rms` function of shout_service.py:
`20 * log10(max(rms / 32768, 1e-9))`. -/
noncomputable def dbfsFromRms (r : ℝ) : ℝ :=
  20 * Real.logb 10 (max (r / 32768) 1e-9)

/-- One entry of the `stats` list built in lines 89-94 of
shout_service.py. -/
noncomputable def mkStat (sig : List ℝ) (w o : ℕ) : FrameStat ℝ :=
  ⟨o, dbfsFromRms (rms (frameAt sig o w)),
    crestFactorDb (frameAt sig o w) (rms (frameAt sig o w))⟩

/-- The full `stats` list of `detect_shout` for a signal. -/
noncomputable def statsOf (sig : List ℝ) (sr : ℕ) : List (FrameStat ℝ) :=
  (frameOffsets sig.length (winOf sr) (hopOf sr)).map (mkStat sig (winOf sr))

/-- The `db_values` list of line 96 of shout_service.py. -/
noncomputable def dbValues (sig : List ℝ) (sr : ℕ) : List ℝ :=
  (statsOf sig sr).map (fun s => s.db)

/-- The `dynamic_threshold` actually used by `detect_shout` on a given
signal. -/
noncomputable def dynThresholdOf (sig : List ℝ) (sr : ℕ) : ℝ :=
  dynamicThreshold (dbValues sig sr)

/-- The `detect_shout` function of shout_service.py (lines 80-186):
frame the signal, compute per-frame stats, derive the adaptive
threshold, and scan for the first qualifying run. -/
noncomputable def detectShout (sig : List ℝ) (sr : ℕ) : ShoutResult ℝ :=
  if statsOf sig sr = [] then absentResult
  else scanRuns sr (winOf sr) (dynThresholdOf sig sr) (statsOf sig sr) none

/-- The clip-and-scale step of `to_mono_16k` (lines 49-50 of
shout_service.py): `clip(samples, -1, 1) * 32768`. -/
def clipScale (x : ℝ) : ℝ := max (-1) (min 1 x) * 32768

/-- Test signal: a block of `m` samples of amplitude `a` surrounded by
400 ms (6400 samples) of digital silence on each side, at 16 kHz. -/
def blockSig (a : ℝ) (m : ℕ) : List ℝ :=
  List.replicate 6400 0 ++ List.replicate m a ++ List.replicate 6400 0

/-- A 300 ms full-scale segment surrounded by silence. -/
def sig300 : List ℝ := blockSig 32768 4800

/-- A 450 ms full-scale segment surrounded by silence. -/
def sig450 : List ℝ := blockSig 32768 7200

/-- An amplitude whose constant-valued 200 ms frame has exactly
−125 dBFS: `rms = cAmp + 1e-9 = 32768 * 10 ^ (-25/4)`. -/
noncomputable def cAmp : ℝ := 32768 * (10 : ℝ) ^ (-(25 : ℝ) / 4) - 1e-9

/-- A 400 ms segment of amplitude `cAmp` (−125 dBFS) surrounded by
silence: every frame of the detected run is quieter than −120 dBFS. -/
noncomputable def sigQuiet : List ℝ := blockSig cAmp 6400

/-- A generic frame consisting of `p` zeros, `y` copies of `a` and `q`
zeros (all concrete frames of the block signals have this shape). -/
def mixFrame (p y q : ℕ) (a : ℝ) : List ℝ :=
  List.replicate p 0 ++ List.replicate y a ++ List.replicate q 0

/-- The dBFS value of a 3200-sample frame containing `y` samples of
amplitude `a` and zeros elsewhere. -/
noncomputable def dbOfY (a : ℝ) (y : ℕ) : ℝ :=
  dbfsFromRms (Real.sqrt ((y : ℝ) * a ^ 2 / 3200) + 1e-9)

/-- The largest dBFS value among the frames of a (nonempty) run
`s :: rs`, computed as the scan loop accumulates it. -/
def runMaxDb (s : FrameStat α) (rs : List (FrameStat α)) : α :=
  (rs.map (fun t => t.db)).foldl max s.db

/-! ### Basic facts about the scan state machine -/

lemma scanRuns_nil_none (sr win : ℕ) (dyn : α) :
    scanRuns sr win dyn [] (none : Option (RunState α)) = absentResult := rfl

lemma scanRuns_nil_some (sr win : ℕ) (dyn : α) (r : RunState α) :
    scanRuns sr win dyn [] (some r) =
      if MIN_RUN_MS ≤ durationMs sr r then emitResult sr r else absentResult := rfl

lemma scanRuns_cons_none_pos {dyn : α} {s : FrameStat α} (h : qualifies dyn s)
    (sr win : ℕ) (rest : List (FrameStat α)) :
    scanRuns sr win dyn (s :: rest) none =
      scanRuns sr win dyn rest (some (enterRun win s)) := by
  simp only [scanRuns, enterRun, if_pos h]

lemma scanRuns_cons_none_neg {dyn : α} {s : FrameStat α} (h : ¬ qualifies dyn s)
    (sr win : ℕ) (rest : List (FrameStat α)) :
    scanRuns sr win dyn (s :: rest) none = scanRuns sr win dyn rest none := by
  simp only [scanRuns, if_neg h]

lemma scanRuns_cons_some_pos {dyn : α} {s : FrameStat α} (h : qualifies dyn s)
    (sr win : ℕ) (r : RunState α) (rest : List (FrameStat α)) :
    scanRuns sr win dyn (s :: rest) (some r) =
      scanRuns sr win dyn rest (some ⟨r.start, s.idx + win, max r.peak s.db⟩) := by
  simp only [scanRuns, if_pos h]

lemma scanRuns_close_emit {dyn : α} {s : FrameStat α} (h : ¬ qualifies dyn s)
    {sr : ℕ} {r : RunState α} (hg : MIN_RUN_MS ≤ durationMs sr r)
    (win : ℕ) (rest : List (FrameStat α)) :
    scanRuns sr win dyn (s :: rest) (some r) = emitResult sr r := by
  simp only [scanRuns, if_neg h, if_pos hg]

lemma scanRuns_close_discard {dyn : α} {s : FrameStat α} (h : ¬ qualifies dyn s)
    {sr : ℕ} {r : RunState α} (hg : ¬ MIN_RUN_MS ≤ durationMs sr r)
    (win : ℕ) (rest : List (FrameStat α)) :
    scanRuns sr win dyn (s :: rest) (some r) = scanRuns sr win dyn rest none := by
  simp only [scanRuns, if_neg h, if_neg hg]

/-- Processing an all-qualifying block just folds the extension step over
the open run. -/
lemma scanRuns_accum (sr win : ℕ) {dyn : α} :
    ∀ (run : List (FrameStat α)), (∀ s ∈ run, qualifies dyn s) →
      ∀ (r : RunState α) (l : List (FrameStat α)),
        scanRuns sr win dyn (run ++ l) (some r) =
          scanRuns sr win dyn l (some (accumFrom win r run)) := by
  intro run
  induction run with
  | nil => intro _ r l; simp [accumFrom]
  | cons s rs ih =>
      intro hq r l
      have hs : qualifies dyn s := hq s (List.mem_cons_self s rs)
      rw [List.cons_append, scanRuns_cons_some_pos hs,
        ih (fun t ht => hq t (List.mem_cons_of_mem s ht))]
      simp [accumFrom]

/-- Non-qualifying frames are skipped while idle. -/
lemma scanRuns_skip (sr win : ℕ) {dyn : α} :
    ∀ (pre : List (FrameStat α)), (∀ s ∈ pre, ¬ qualifies dyn s) →
      ∀ l, scanRuns sr win dyn (pre ++ l) none = scanRuns sr win dyn l none := by
  intro pre
  induction pre with
  | nil => intro _ l; simp
  | cons s rs ih =>
      intro hq l
      have hs : ¬ qualifies dyn s := hq s (List.mem_cons_self s rs)
      rw [List.cons_append, scanRuns_cons_none_neg hs,
        ih (fun t ht => hq t (List.mem_cons_of_mem s ht))]

/-- Entering on a qualifying frame and accumulating an all-qualifying
block from idle. -/
lemma scanRuns_enter_block (sr win : ℕ) {dyn : α} {s : FrameStat α}
    {rs : List (FrameStat α)} (hq : ∀ t ∈ s :: rs, qualifies dyn t)
    (l : List (FrameStat α)) :
    scanRuns sr win dyn ((s :: rs) ++ l) none =
      scanRuns sr win dyn l (some (accumFrom win (enterRun win s) rs)) := by
  rw [List.cons_append, scanRuns_cons_none_pos (hq s (List.mem_cons_self s rs))]
  exact scanRuns_accum sr win rs (fun t ht => hq t (List.mem_cons_of_mem s ht)) _ l

/-- Every scan ends either in the absent result or in an emitted run that
passed the duration gate and whose peak is the `-120` sentinel or the
dBFS of one of the frames. -/
lemma scanRuns_cases (sr win : ℕ) (dyn : α) (univ : List (FrameStat α)) :
    ∀ (stats : List (FrameStat α)) (st : Option (RunState α)),
      (∀ s ∈ stats, s ∈ univ) →
      (∀ r₀, st = some r₀ → r₀.peak = -120 ∨ ∃ s ∈ univ, r₀.peak = s.db) →
      scanRuns sr win dyn stats st = absentResult ∨
        ∃ r, MIN_RUN_MS ≤ durationMs sr r ∧
          (r.peak = -120 ∨ ∃ s ∈ univ, r.peak = s.db) ∧
          scanRuns sr win dyn stats st = emitResult sr r := by
  intro stats
  induction stats with
  | nil =>
      intro st hsub hst
      match st with
      | none => exact Or.inl rfl
      | some r =>
          by_cases hg : MIN_RUN_MS ≤ durationMs sr r
          · exact Or.inr ⟨r, hg, hst r rfl, by rw [scanRuns_nil_some, if_pos hg]⟩
          · exact Or.inl (by rw [scanRuns_nil_some, if_neg hg])
  | cons s rest ih =>
      intro st hsub hst
      have hsub' : ∀ t ∈ rest, t ∈ univ := fun t ht => hsub t (List.mem_cons_of_mem s ht)
      have hs : s ∈ univ := hsub s (List.mem_cons_self s rest)
      match st with
      | none =>
          by_cases hq : qualifies dyn s
          · rw [scanRuns_cons_none_pos hq]
            refine ih _ hsub' ?_
            intro r₀ hr₀
            rcases Option.some_injective _ hr₀.symm with rfl
            rcases max_choice (-120 : α) s.db with hm | hm
            · exact Or.inl hm
            · exact Or.inr ⟨s, hs, hm⟩
          · rw [scanRuns_cons_none_neg hq]
            exact ih _ hsub' (by intro r₀ h; cases h)
      | some r =>
          by_cases hq : qualifies dyn s
          · rw [scanRuns_cons_some_pos hq]
            refine ih _ hsub' ?_
            intro r₀ hr₀
            rcases Option.some_injective _ hr₀.symm with rfl
            rcases max_choice r.peak s.db with hm | hm
            · rw [hm]; exact hst r rfl
            · exact Or.inr ⟨s, hs, hm⟩
          · by_cases hg : MIN_RUN_MS ≤ durationMs sr r
            · exact Or.inr ⟨r, hg, hst r rfl, scanRuns_close_emit hq hg win rest⟩
            · rw [scanRuns_close_discard hq hg]
              exact ih _ hsub' (by intro r₀ h; cases h)

lemma emitResult_present (sr : ℕ) (r : RunState α) :
    (emitResult sr r).present = true := rfl

lemma absentResult_present : (absentResult : ShoutResult α).present = false := rfl

/-- Dichotomy at the `detect_shout` level. -/
lemma detectShout_cases (sig : List ℝ) (sr : ℕ) :
    detectShout sig sr = absentResult ∨
      ∃ r, MIN_RUN_MS ≤ durationMs sr r ∧
        (r.peak = -120 ∨ ∃ s ∈ statsOf sig sr, r.peak = s.db) ∧
        detectShout sig sr = emitResult sr r := by
  unfold detectShout
  by_cases h : statsOf sig sr = []
  · exact Or.inl (by rw [if_pos h])
  · rw [if_neg h]
    exact scanRuns_cases sr (winOf sr) (dynThresholdOf sig sr) (statsOf sig sr)
      (statsOf sig sr) none (fun s hs => hs) (by intro r₀ h; cases h)

/-! ### Facts about `pyInt`, `pyRoundHalfEven`, `pyRound2` -/

lemma pyInt_of_nonneg {x : α} (h : 0 ≤ x) : pyInt x = ⌊x⌋ := if_pos h

lemma pyInt_intCast (n : ℤ) : pyInt ((n : α)) = n := by
  unfold pyInt
  split
  · exact Int.floor_intCast n
  · rw [← Int.cast_neg, Int.floor_intCast]; ring

lemma pyInt_nonneg {x : α} (h : 0 ≤ x) : 0 ≤ pyInt x := by
  rw [pyInt_of_nonneg h]; exact Int.floor_nonneg.mpr h

/-- A positive `pyInt` forces a nonnegative argument (a negative float
truncates toward zero, hence to a nonpositive int). -/
lemma nonneg_of_pyInt_pos {x : α} (h : 0 < pyInt x) : 0 ≤ x := by
  by_contra hx
  push_neg at hx
  have h1 : pyInt x = -⌊-x⌋ := if_neg (not_le.mpr hx)
  have h2 : (0 : ℤ) ≤ ⌊-x⌋ := Int.floor_nonneg.mpr (by linarith)
  omega

lemma floor_add_floor_le (x y : α) : ⌊x⌋ + ⌊y⌋ ≤ ⌊x + y⌋ := by
  apply Int.le_floor.mpr
  push_cast
  exact add_le_add (Int.floor_le x) (Int.floor_le y)

lemma pyRoundHalfEven_lower (y : α) : ⌊y⌋ ≤ pyRoundHalfEven y := by
  unfold pyRoundHalfEven
  split_ifs <;> omega

lemma pyRoundHalfEven_upper (y : α) : pyRoundHalfEven y ≤ ⌊y⌋ + 1 := by
  unfold pyRoundHalfEven
  split_ifs <;> omega

lemma pyRoundHalfEven_nonpos {y : α} (h : y < 1 / 2) : pyRoundHalfEven y ≤ 0 := by
  have hf : ⌊y⌋ ≤ 0 := by
    by_contra hc
    push_neg at hc
    have : (1 : α) ≤ y := by
      calc (1 : α) = ((1 : ℤ) : α) := by norm_num
      _ ≤ (⌊y⌋ : α) := by exact_mod_cast hc
      _ ≤ y := Int.floor_le y
    linarith
  unfold pyRoundHalfEven
  split_ifs with h1 h2 h3
  · exact hf
  · -- fract y > 1/2 together with y < 1/2 forces ⌊y⌋ ≤ -1
    have : (⌊y⌋ : α) = y - Int.fract y := by rw [Int.self_sub_fract]
    have hneg : (⌊y⌋ : α) < 0 := by linarith
    have : ⌊y⌋ < 0 := by exact_mod_cast hneg
    omega
  · exact hf
  · have h2' : Int.fract y = 1 / 2 := le_antisymm (not_lt.mp h2) (not_lt.mp h1)
    have : (⌊y⌋ : α) = y - Int.fract y := by rw [Int.self_sub_fract]
    have hneg : (⌊y⌋ : α) < 0 := by rw [this, h2']; linarith
    have : ⌊y⌋ < 0 := by exact_mod_cast hneg
    omega

lemma pyRoundHalfEven_ge {n : ℤ} {y : α} (h : (n : α) ≤ y) :
    n ≤ pyRoundHalfEven y :=
  le_trans (Int.le_floor.mpr h) (pyRoundHalfEven_lower y)

lemma pyRoundHalfEven_intCast (n : ℤ) : pyRoundHalfEven ((n : α)) = n := by
  unfold pyRoundHalfEven
  rw [Int.fract_intCast, Int.floor_intCast]
  norm_num

lemma pyRound2_eq_of_mul_eq {x : α} {n : ℤ} (h : x * 100 = (n : α)) :
    pyRound2 x = (n : α) / 100 := by
  unfold pyRound2
  rw [h, pyRoundHalfEven_intCast]

lemma pyRound2_nonpos {x : α} (h : x < 5 / 1000) : pyRound2 x ≤ 0 := by
  unfold pyRound2
  have : pyRoundHalfEven (x * 100) ≤ 0 := pyRoundHalfEven_nonpos (by linarith)
  have h100 : (0 : α) < 100 := by norm_num
  apply div_nonpos_of_nonpos_of_nonneg _ (le_of_lt h100)
  exact_mod_cast this

lemma pyRound2_ge {x : α} {n : ℤ} (h : (n : α) ≤ x * 100) :
    (n : α) / 100 ≤ pyRound2 x := by
  unfold pyRound2
  have h1 : n ≤ pyRoundHalfEven (x * 100) := pyRoundHalfEven_ge h
  have h2 : (n : α) ≤ (pyRoundHalfEven (x * 100) : α) := by exact_mod_cast h1
  linarith

/-! ### Facts about folded maxima (run peaks) -/

lemma le_foldl_max : ∀ (l : List α) (a : α), a ≤ l.foldl max a := by
  intro l
  induction l with
  | nil => intro a; simp
  | cons b t ih => intro a; exact le_trans (le_max_left a b) (ih (max a b))

lemma mem_le_foldl_max : ∀ (l : List α) (a : α), ∀ x ∈ l, x ≤ l.foldl max a := by
  intro l
  induction l with
  | nil => intro a x hx; cases hx
  | cons b t ih =>
      intro a x hx
      rcases List.mem_cons.mp hx with rfl | hx
      · exact le_trans (le_max_right a x) (le_foldl_max t (max a x))
      · exact ih (max a b) x hx

lemma foldl_max_choice : ∀ (l : List α) (a : α), l.foldl max a = a ∨ l.foldl max a ∈ l := by
  intro l
  induction l with
  | nil => intro a; exact Or.inl rfl
  | cons b t ih =>
      intro a
      rcases ih (max a b) with h | h
      · rcases max_choice a b with hm | hm
        · exact Or.inl (by rw [List.foldl_cons, h, hm])
        · exact Or.inr (by rw [List.foldl_cons, h, hm]; exact List.mem_cons_self b t)
      · exact Or.inr (List.mem_cons_of_mem b h)

lemma foldl_max_max (a b : α) : ∀ (l : List α),
    l.foldl max (max a b) = max a (l.foldl max b) := by
  intro l
  induction l generalizing b with
  | nil => simp
  | cons c t ih => rw [List.foldl_cons, List.foldl_cons, max_assoc, ih]

/-- The peak accumulated over an all-qualifying block entered from idle. -/
lemma accumFrom_enter_peak (win : ℕ) (s : FrameStat α) (rs : List (FrameStat α)) :
    (accumFrom win (enterRun win s) rs).peak = max (-120) (runMaxDb s rs) := by
  unfold runMaxDb
  have : ∀ (l : List (FrameStat α)) (r : RunState α),
      (accumFrom win r l).peak = (l.map (fun t => t.db)).foldl max r.peak := by
    intro l
    induction l with
    | nil => intro r; simp [accumFrom]
    | cons t ts ih =>
        intro r
        rw [show accumFrom win r (t :: ts) =
          accumFrom win ⟨r.start, t.idx + win, max r.peak t.db⟩ ts from rfl, ih]
        simp
  rw [this, enterRun, foldl_max_max]

/-! ### Real-analysis toolkit for the frame features -/

lemma one_lt_ten : (1:ℝ) < 10 := by norm_num

lemma five_lt_rpow_nine_tenths : (5:ℝ) < (10:ℝ) ^ ((9:ℝ)/10) := by
  have key : ((10:ℝ) ^ ((9:ℝ)/10)) ^ (10:ℕ) = 10 ^ (9:ℕ) := by
    rw [← Real.rpow_natCast ((10:ℝ) ^ ((9:ℝ)/10)) 10, ← Real.rpow_mul (by norm_num)]
    norm_num
  have h5 : (5:ℝ) ^ (10:ℕ) < ((10:ℝ) ^ ((9:ℝ)/10)) ^ (10:ℕ) := by rw [key]; norm_num
  exact lt_of_pow_lt_pow_left₀ 10 (Real.rpow_nonneg (by norm_num) _) h5

lemma rpow_neg_nine_tenths_lt_half : (10:ℝ) ^ (-(9:ℝ)/10) < 1/2 := by
  have h2 : (2:ℝ) < (10:ℝ) ^ ((9:ℝ)/10) := lt_trans (by norm_num) five_lt_rpow_nine_tenths
  have hpos : (0:ℝ) < (10:ℝ) ^ ((9:ℝ)/10) := Real.rpow_pos_of_pos (by norm_num) _
  rw [show (-(9:ℝ)/10) = -((9:ℝ)/10) by ring, Real.rpow_neg (by norm_num),
    inv_eq_one_div, div_lt_div_iff₀ hpos (by norm_num)]
  linarith

lemma rpow_neg_eight : (10:ℝ) ^ ((-160:ℝ)/20) = 1e-8 := by
  rw [show ((-160:ℝ)/20) = ((-8:ℤ):ℝ) by norm_num, Real.rpow_intCast]
  norm_num

lemma le_dbfsFromRms {t r : ℝ} (h : (10:ℝ) ^ (t / 20) ≤ r / 32768) : t ≤ dbfsFromRms r := by
  unfold dbfsFromRms
  have hx : (0:ℝ) < max (r / 32768) 1e-9 := lt_of_lt_of_le (by norm_num) (le_max_right _ _)
  have h2 : (10:ℝ) ^ (t/20) ≤ max (r / 32768) 1e-9 := le_trans h (le_max_left _ _)
  have h3 := (Real.le_logb_iff_rpow_le one_lt_ten hx).mpr h2
  linarith

lemma dbfsFromRms_lt {t r : ℝ} (h : max (r / 32768) 1e-9 < (10:ℝ) ^ (t / 20)) :
    dbfsFromRms r < t := by
  unfold dbfsFromRms
  have hx : (0:ℝ) < max (r / 32768) 1e-9 := lt_of_lt_of_le (by norm_num) (le_max_right _ _)
  have h3 := (Real.logb_lt_iff_lt_rpow one_lt_ten hx).mpr h
  linarith

lemma dbfsFromRms_mono {r1 r2 : ℝ} (h : r1 ≤ r2) : dbfsFromRms r1 ≤ dbfsFromRms r2 := by
  unfold dbfsFromRms
  have hx : (0:ℝ) < max (r1 / 32768) 1e-9 := lt_of_lt_of_le (by norm_num) (le_max_right _ _)
  have hle : max (r1 / 32768) 1e-9 ≤ max (r2 / 32768) 1e-9 :=
    max_le_max (by linarith) le_rfl
  have := Real.logb_le_logb_of_le one_lt_ten hx hle
  linarith

lemma dbfsFromRms_strictMono {r1 r2 : ℝ} (hfl : (1e-9:ℝ) ≤ r1 / 32768) (h : r1 < r2) :
    dbfsFromRms r1 < dbfsFromRms r2 := by
  unfold dbfsFromRms
  rw [max_eq_left hfl, max_eq_left (show (1e-9:ℝ) ≤ r2 / 32768 by
    refine le_trans hfl ?_; linarith)]
  have hpos : (0:ℝ) < r1 / 32768 := lt_of_lt_of_le (by norm_num) hfl
  have := Real.logb_lt_logb one_lt_ten hpos (show r1/32768 < r2/32768 by linarith)
  linarith

lemma dbfsFromRms_eps : dbfsFromRms 1e-9 = -180 := by
  unfold dbfsFromRms
  rw [show max ((1e-9:ℝ) / 32768) 1e-9 = 1e-9 from max_eq_right (by norm_num)]
  rw [show (1e-9:ℝ) = (10:ℝ) ^ ((-9:ℝ)) from by
    rw [show ((-9:ℝ)) = ((-9:ℤ):ℝ) by norm_num, Real.rpow_intCast]; norm_num]
  rw [Real.logb_rpow (by norm_num) (by norm_num)]
  norm_num

lemma crestFactorDb_lt_MAX {seg : List ℝ} {r a : ℝ} (ha : 0 < a)
    (hpk : peakAbs seg = a + 1e-9) (hr : a / 2 + 1e-9 ≤ r) :
    crestFactorDb seg r < 18 := by
  unfold crestFactorDb
  have hd : (0:ℝ) < a/2 + 1e-9 := by linarith
  have hr0 : (0:ℝ) < r := lt_of_lt_of_le hd hr
  have hratio : peakAbs seg / r ≤ (a + 1e-9) / (a/2 + 1e-9) := by
    rw [hpk]
    exact div_le_div_of_nonneg_left (by linarith) hd hr
  have h4 : (a + 1e-9) / (a/2 + 1e-9) < 4 := by
    rw [div_lt_iff₀ hd]; linarith
  have hx : peakAbs seg / r + 1e-12 < (10:ℝ) ^ ((18:ℝ)/20) := by
    rw [show ((18:ℝ)/20) = ((9:ℝ)/10) by norm_num]
    have := five_lt_rpow_nine_tenths
    linarith
  have hpos : (0:ℝ) < peakAbs seg / r + 1e-12 := by
    rw [hpk]; positivity
  have h3 := (Real.logb_lt_iff_lt_rpow one_lt_ten hpos).mpr hx
  linarith

/-! ### Features of the mixed constant-amplitude frames -/

lemma length_mixFrame (p y q : ℕ) (a : ℝ) : (mixFrame p y q a).length = p + y + q := by
  simp [mixFrame]
  omega

lemma sumSq_mixFrame (p y q : ℕ) (a : ℝ) :
    ((mixFrame p y q a).map (fun x => x ^ 2)).sum = (y:ℝ) * a^2 := by
  simp [mixFrame, List.map_append, List.map_replicate, List.sum_append,
    List.sum_replicate, nsmul_eq_mul]

lemma rms_mixFrame (p y q : ℕ) (a : ℝ) (h : p + y + q = 3200) :
    rms (mixFrame p y q a) = Real.sqrt ((y:ℝ) * a^2 / 3200) + 1e-9 := by
  unfold rms
  rw [sumSq_mixFrame, length_mixFrame, h]
  norm_num

lemma foldr_max_replicate (k : ℕ) (x i : ℝ) :
    (List.replicate k x).foldr max i = if k = 0 then i else max x i := by
  induction k with
  | zero => simp
  | succ n ih =>
      rw [List.replicate_succ, List.foldr_cons, ih]
      rcases Nat.eq_zero_or_pos n with hn | hn
      · simp [hn]
      · rw [if_neg (by omega), if_neg (by omega), ← max_assoc, max_self]

lemma peakAbs_mixFrame (p y q : ℕ) {a : ℝ} (ha : 0 ≤ a) :
    peakAbs (mixFrame p y q a) = (if y = 0 then 0 else a) + 1e-9 := by
  unfold peakAbs mixFrame
  rw [List.map_append, List.map_append, List.map_replicate, List.map_replicate,
    List.map_replicate, List.foldr_append, List.foldr_append,
    abs_zero, abs_of_nonneg ha]
  rw [foldr_max_replicate, foldr_max_replicate, foldr_max_replicate]
  have hY : (if q = 0 then (0:ℝ) else max 0 0) = 0 := by split_ifs <;> simp
  rw [hY]
  have hX : (if y = 0 then (0:ℝ) else max a 0) = if y = 0 then 0 else a := by
    split_ifs <;> simp [max_eq_left ha]
  rw [hX]
  have hXnn : (0:ℝ) ≤ if y = 0 then 0 else a := by split_ifs <;> simp [ha]
  rcases Nat.eq_zero_or_pos p with hp | hp
  · rw [if_pos hp]
  · rw [if_neg (by omega), max_eq_right hXnn]

lemma db_mixFrame {sig : List ℝ} {o : ℕ} {p y q : ℕ} {a : ℝ}
    (hf : frameAt sig o 3200 = mixFrame p y q a) (h : p + y + q = 3200) :
    (mkStat sig 3200 o).db = dbOfY a y := by
  show dbfsFromRms (rms (frameAt sig o 3200)) = dbOfY a y
  rw [hf, rms_mixFrame p y q a h]
  rfl

/-! ### Bounds on the dBFS of the mixed frames -/

lemma sqrt_mix_lower {y : ℕ} {a : ℝ} (ha : 0 ≤ a) (hy : 800 ≤ y) :
    a/2 ≤ Real.sqrt ((y:ℝ) * a^2 / 3200) := by
  have hyR : (800:ℝ) ≤ (y:ℝ) := by exact_mod_cast hy
  have h1 : (800:ℝ) * a^2 / 3200 ≤ (y:ℝ) * a^2 / 3200 := by gcongr
  have h2 : Real.sqrt ((800:ℝ) * a^2 / 3200) = a/2 := by
    rw [show (800:ℝ) * a^2 / 3200 = (a/2)^2 by ring]
    exact Real.sqrt_sq (by linarith)
  calc a/2 = Real.sqrt ((800:ℝ) * a^2/3200) := h2.symm
  _ ≤ _ := Real.sqrt_le_sqrt h1

lemma sqrt_mix_full {a : ℝ} (ha : 0 ≤ a) :
    Real.sqrt ((3200:ℝ) * a^2 / 3200) = a := by
  rw [show (3200:ℝ) * a^2 / 3200 = a^2 by ring]
  exact Real.sqrt_sq ha

lemma dbOfY_mono (a : ℝ) {y1 y2 : ℕ} (h : y1 ≤ y2) :
    dbOfY a y1 ≤ dbOfY a y2 := by
  unfold dbOfY
  apply dbfsFromRms_mono
  have : (y1:ℝ) ≤ (y2:ℝ) := by exact_mod_cast h
  have := Real.sqrt_le_sqrt (show (y1:ℝ) * a^2/3200 ≤ (y2:ℝ) * a^2/3200 by
    apply div_le_div_of_nonneg_right ?_ (by norm_num)
    exact mul_le_mul_of_nonneg_right this (sq_nonneg a))
  linarith

lemma dbOfY_zero (a : ℝ) : dbOfY a 0 = -180 := by
  unfold dbOfY
  rw [show ((0:ℕ):ℝ) * a^2/3200 = 0 by norm_num, Real.sqrt_zero, zero_add]
  exact dbfsFromRms_eps

/-- The loudness of a frame holding at least 800 samples of a positive
amplitude `a`, lower bound in terms of `a`. -/
lemma le_dbOfY {t : ℝ} {a : ℝ} {y : ℕ} (ha : 0 ≤ a) (hy : 800 ≤ y)
    (h : (10:ℝ) ^ (t / 20) ≤ (a / 2) / 32768) : t ≤ dbOfY a y := by
  unfold dbOfY
  apply le_dbfsFromRms
  have := sqrt_mix_lower ha hy
  refine le_trans h ?_
  have h32 : (0:ℝ) ≤ 32768 := by norm_num
  apply div_le_div_of_nonneg_right ?_ h32
  linarith

lemma rpow_neg18_div20_le_half : (10:ℝ) ^ ((-18:ℝ)/20) ≤ 1/2 := by
  rw [show ((-18:ℝ)/20) = (-(9:ℝ)/10) by norm_num]
  exact le_of_lt rpow_neg_nine_tenths_lt_half

/-- Loudness of a frame with at least 800 full-scale samples clears the
base threshold −18 dBFS. -/
lemma neg18_le_dbOfY_A {y : ℕ} (hy : 800 ≤ y) : (-18:ℝ) ≤ dbOfY 32768 y := by
  apply le_dbOfY (by norm_num) hy
  rw [show ((32768:ℝ)/2)/32768 = 1/2 by norm_num]
  exact rpow_neg18_div20_le_half

lemma cAmp_lb : (1:ℝ)/1000 ≤ cAmp := by
  unfold cAmp
  have h1 : (10:ℝ)^(-(7:ℝ)) ≤ (10:ℝ)^(-(25:ℝ)/4) :=
    (Real.rpow_le_rpow_left_iff one_lt_ten).mpr (by norm_num)
  have h2 : (10:ℝ)^(-(7:ℝ)) = 1e-7 := by
    rw [show (-(7:ℝ)) = ((-7:ℤ):ℝ) by norm_num, Real.rpow_intCast]; norm_num
  rw [h2] at h1
  nlinarith

lemma cAmp_pos : 0 < cAmp := lt_of_lt_of_le (by norm_num) cAmp_lb

/-- Loudness of a frame with at least 800 samples of amplitude `cAmp`
clears the adaptive threshold −160 dBFS. -/
lemma neg160_le_dbOfY_quiet {y : ℕ} (hy : 800 ≤ y) : (-160:ℝ) ≤ dbOfY cAmp y := by
  apply le_dbOfY cAmp_pos.le hy
  rw [rpow_neg_eight]
  have := cAmp_lb
  rw [div_div, le_div_iff₀ (by norm_num : (0:ℝ) < 2 * 32768)]
  linarith

/-- Exact dBFS of a full frame of amplitude `cAmp`: −125 dBFS. -/
lemma dbOfY_quiet_full : dbOfY cAmp 3200 = -125 := by
  unfold dbOfY
  rw [show ((3200:ℕ):ℝ) = (3200:ℝ) by norm_num, sqrt_mix_full cAmp_pos.le]
  unfold dbfsFromRms
  have hc : cAmp + 1e-9 = 32768 * (10:ℝ)^(-(25:ℝ)/4) := by unfold cAmp; ring
  rw [hc, show (32768 * (10:ℝ)^(-(25:ℝ)/4)) / 32768 = (10:ℝ)^(-(25:ℝ)/4) by ring]
  have hfloor : (1e-9:ℝ) ≤ (10:ℝ)^(-(25:ℝ)/4) := by
    have h1 : (10:ℝ)^(-(9:ℝ)) ≤ (10:ℝ)^(-(25:ℝ)/4) :=
      (Real.rpow_le_rpow_left_iff one_lt_ten).mpr (by norm_num)
    have h2 : (10:ℝ)^(-(9:ℝ)) = 1e-9 := by
      rw [show (-(9:ℝ)) = ((-9:ℤ):ℝ) by norm_num, Real.rpow_intCast]; norm_num
    linarith
  rw [max_eq_left hfloor, Real.logb_rpow (by norm_num) (by norm_num)]
  norm_num

lemma dbOfY_quiet_le {y : ℕ} (hy : y ≤ 3200) : dbOfY cAmp y ≤ -125 := by
  rw [← dbOfY_quiet_full]
  exact dbOfY_mono cAmp hy

/-- Strict monotonicity of the frame dBFS in the number of loud samples,
for amplitudes that keep the RMS above the `1e-9` floor. -/
lemma dbOfY_strict {a : ℝ} (ha : 0 < a) (hfl : (1e-9:ℝ) ≤ (a/2)/32768)
    {y1 y2 : ℕ} (h8 : 800 ≤ y1) (h : y1 < y2) : dbOfY a y1 < dbOfY a y2 := by
  unfold dbOfY
  apply dbfsFromRms_strictMono
  · have h1 := sqrt_mix_lower ha.le h8
    have h2 : (a/2)/32768 ≤ (Real.sqrt ((y1:ℝ) * a^2/3200) + 1e-9)/32768 := by
      apply div_le_div_of_nonneg_right ?_ (by norm_num)
      linarith
    linarith
  · have hy12 : (y1:ℝ) < (y2:ℝ) := by exact_mod_cast h
    have ha2 : (0:ℝ) < a^2 := by positivity
    have h3 : (y1:ℝ)*a^2 < (y2:ℝ)*a^2 := mul_lt_mul_of_pos_right hy12 ha2
    have := Real.sqrt_lt_sqrt (by positivity)
      (show (y1:ℝ)*a^2/3200 < (y2:ℝ)*a^2/3200 by linarith)
    linarith

/-- A frame whose dBFS falls below the dynamic threshold never
qualifies. -/
lemma not_qualifies_of_db {s : FrameStat ℝ} {dyn : ℝ} (h : s.db < dyn) :
    ¬ qualifies dyn s := fun hq => absurd hq.1 (not_le.mpr h)

/-- A mixed frame with at least 800 samples of positive amplitude `a`
qualifies whenever its dBFS clears the threshold (the crest factor of
such a frame is below 6.1 dB, well under the 18 dB cap). -/
lemma qualifies_mix {sig : List ℝ} {o p y q : ℕ} {a dyn : ℝ} (ha : 0 < a)
    (hy : 800 ≤ y) (hsum : p + y + q = 3200)
    (hf : frameAt sig o 3200 = mixFrame p y q a)
    (hloud : dyn ≤ dbOfY a y) : qualifies dyn (mkStat sig 3200 o) := by
  constructor
  · show dyn ≤ (mkStat sig 3200 o).db
    rw [db_mixFrame hf hsum]
    exact hloud
  · show (mkStat sig 3200 o).crest < MAX_CREST_DB
    have hcrest : (mkStat sig 3200 o).crest =
        crestFactorDb (frameAt sig o 3200) (rms (frameAt sig o 3200)) := rfl
    rw [hcrest, hf]
    have hMAX : (MAX_CREST_DB : ℝ) = 18 := rfl
    rw [hMAX]
    apply crestFactorDb_lt_MAX ha
    · rw [peakAbs_mixFrame p y q ha.le, if_neg (by omega)]
    · rw [rms_mixFrame p y q a hsum]
      have := sqrt_mix_lower ha.le hy
      linarith

/-! ### Evaluation of `detect_shout` on the 300 ms test signal -/

lemma length_sig300 : sig300.length = 17600 := by
  simp only [sig300, blockSig, List.length_append, List.length_replicate]

lemma winOf_16000 : winOf 16000 = 3200 := rfl

lemma hopOf_16000 : hopOf 16000 = 1600 := rfl

lemma offsets_17600 : frameOffsets 17600 3200 1600 =
    [0, 1600, 3200, 4800, 6400, 8000, 9600, 11200, 12800, 14400] := by decide

lemma statsOf_sig300 : statsOf sig300 16000 =
    [mkStat sig300 3200 0, mkStat sig300 3200 1600, mkStat sig300 3200 3200,
     mkStat sig300 3200 4800, mkStat sig300 3200 6400, mkStat sig300 3200 8000,
     mkStat sig300 3200 9600, mkStat sig300 3200 11200, mkStat sig300 3200 12800,
     mkStat sig300 3200 14400] := by
  unfold statsOf
  rw [length_sig300, winOf_16000, hopOf_16000, offsets_17600]
  rfl

lemma frames_sig300 :
    frameAt sig300 0 3200 = mixFrame 3200 0 0 32768 ∧
    frameAt sig300 1600 3200 = mixFrame 3200 0 0 32768 ∧
    frameAt sig300 3200 3200 = mixFrame 3200 0 0 32768 ∧
    frameAt sig300 4800 3200 = mixFrame 1600 1600 0 32768 ∧
    frameAt sig300 6400 3200 = mixFrame 0 3200 0 32768 ∧
    frameAt sig300 8000 3200 = mixFrame 0 3200 0 32768 ∧
    frameAt sig300 9600 3200 = mixFrame 0 1600 1600 32768 ∧
    frameAt sig300 11200 3200 = mixFrame 3200 0 0 32768 ∧
    frameAt sig300 12800 3200 = mixFrame 3200 0 0 32768 ∧
    frameAt sig300 14400 3200 = mixFrame 3200 0 0 32768 := by
  refine ⟨?_, ?_, ?_, ?_, ?_, ?_, ?_, ?_, ?_, ?_⟩ <;>
    (simp only [sig300, blockSig, frameAt, mixFrame, List.drop_append_eq_append_drop,
      List.take_append_eq_append_take, List.drop_replicate, List.take_replicate,
      List.length_replicate, List.length_append]
     norm_num)

lemma dbValues_sig300 : dbValues sig300 16000 =
    [-180, -180, -180, dbOfY 32768 1600, dbOfY 32768 3200, dbOfY 32768 3200,
     dbOfY 32768 1600, -180, -180, -180] := by
  obtain ⟨F0, F1, F2, F3, F4, F5, F6, F7, F8, F9⟩ := frames_sig300
  unfold dbValues
  rw [statsOf_sig300]
  simp only [List.map_cons, List.map_nil]
  rw [db_mixFrame F0 (by norm_num), db_mixFrame F1 (by norm_num),
    db_mixFrame F2 (by norm_num), db_mixFrame F3 (by norm_num),
    db_mixFrame F4 (by norm_num), db_mixFrame F5 (by norm_num),
    db_mixFrame F6 (by norm_num), db_mixFrame F7 (by norm_num),
    db_mixFrame F8 (by norm_num), db_mixFrame F9 (by norm_num)]
  simp only [dbOfY_zero]

lemma median_sig300 : medianNp (dbValues sig300 16000) = -180 := by
  rw [dbValues_sig300]
  have h18 : (-18:ℝ) ≤ dbOfY 32768 1600 := neg18_le_dbOfY_A (by norm_num)
  have hlt : dbOfY 32768 1600 < dbOfY 32768 3200 :=
    dbOfY_strict (by norm_num) (by norm_num) (by norm_num) (by norm_num)
  have hns1 : ¬ (dbOfY 32768 1600 ≤ (-180:ℝ)) := not_le.mpr (by linarith)
  have hns2 : ¬ (dbOfY 32768 3200 ≤ (-180:ℝ)) := not_le.mpr (by linarith)
  have hns3 : ¬ (dbOfY 32768 3200 ≤ dbOfY 32768 1600) := not_le.mpr hlt
  unfold medianNp
  simp only [List.insertionSort, List.orderedInsert, hns1, hns2, hns3, if_true, if_false,
    le_refl, ite_true, ite_false, List.length_cons, List.length_nil]
  norm_num [List.getD_cons_zero, List.getD_cons_succ]

lemma dbValues_sig300_ne : dbValues sig300 16000 ≠ [] := by
  rw [dbValues_sig300]; simp

lemma dyn_sig300 : dynThresholdOf sig300 16000 = -160 := by
  unfold dynThresholdOf dynamicThreshold medianDb
  rw [if_neg dbValues_sig300_ne, median_sig300,
    show (THRESH_DBFS:ℝ) = -18 from rfl,
    show (-180 + 20 : ℝ) = -160 by norm_num,
    min_eq_right (by norm_num : (-160:ℝ) ≤ -18)]

/-- Full evaluation on the 300 ms signal: `detect_shout` emits the run
spanning the frames at offsets 4800–9600, i.e. samples [4800, 12800). -/
lemma detect_sig300_eq : detectShout sig300 16000 =
    emitResult 16000 (accumFrom 3200 (enterRun 3200 (mkStat sig300 3200 4800))
      [mkStat sig300 3200 6400, mkStat sig300 3200 8000, mkStat sig300 3200 9600]) := by
  obtain ⟨F0, F1, F2, F3, F4, F5, F6, F7, F8, F9⟩ := frames_sig300
  have h16 : (-18:ℝ) ≤ dbOfY 32768 1600 := neg18_le_dbOfY_A (by norm_num)
  have h32 : (-18:ℝ) ≤ dbOfY 32768 3200 := neg18_le_dbOfY_A (by norm_num)
  have hdb0 : (mkStat sig300 3200 0).db = -180 := by
    rw [db_mixFrame F0 (by norm_num), dbOfY_zero]
  have hdb1 : (mkStat sig300 3200 1600).db = -180 := by
    rw [db_mixFrame F1 (by norm_num), dbOfY_zero]
  have hdb2 : (mkStat sig300 3200 3200).db = -180 := by
    rw [db_mixFrame F2 (by norm_num), dbOfY_zero]
  have hdb7 : (mkStat sig300 3200 11200).db = -180 := by
    rw [db_mixFrame F7 (by norm_num), dbOfY_zero]
  have q0 : ¬ qualifies (-160:ℝ) (mkStat sig300 3200 0) :=
    not_qualifies_of_db (by rw [hdb0]; norm_num)
  have q1 : ¬ qualifies (-160:ℝ) (mkStat sig300 3200 1600) :=
    not_qualifies_of_db (by rw [hdb1]; norm_num)
  have q2 : ¬ qualifies (-160:ℝ) (mkStat sig300 3200 3200) :=
    not_qualifies_of_db (by rw [hdb2]; norm_num)
  have q7 : ¬ qualifies (-160:ℝ) (mkStat sig300 3200 11200) :=
    not_qualifies_of_db (by rw [hdb7]; norm_num)
  have q3 : qualifies (-160:ℝ) (mkStat sig300 3200 4800) :=
    qualifies_mix (by norm_num) (by norm_num) (by norm_num) F3 (by linarith)
  have q4 : qualifies (-160:ℝ) (mkStat sig300 3200 6400) :=
    qualifies_mix (by norm_num) (by norm_num) (by norm_num) F4 (by linarith)
  have q5 : qualifies (-160:ℝ) (mkStat sig300 3200 8000) :=
    qualifies_mix (by norm_num) (by norm_num) (by norm_num) F5 (by linarith)
  have q6 : qualifies (-160:ℝ) (mkStat sig300 3200 9600) :=
    qualifies_mix (by norm_num) (by norm_num) (by norm_num) F6 (by linarith)
  unfold detectShout
  rw [if_neg (by rw [statsOf_sig300]; simp), winOf_16000, dyn_sig300, statsOf_sig300]
  show scanRuns 16000 3200 (-160)
      ([mkStat sig300 3200 0, mkStat sig300 3200 1600, mkStat sig300 3200 3200] ++
       ([mkStat sig300 3200 4800, mkStat sig300 3200 6400, mkStat sig300 3200 8000,
         mkStat sig300 3200 9600] ++
        [mkStat sig300 3200 11200, mkStat sig300 3200 12800, mkStat sig300 3200 14400]))
      none = _
  rw [scanRuns_skip 16000 3200 _ (by
    intro s hs
    simp only [List.mem_cons, List.not_mem_nil, or_false] at hs
    rcases hs with rfl | rfl | rfl
    exacts [q0, q1, q2]) _]
  rw [scanRuns_enter_block 16000 3200 (by
    intro t ht
    simp only [List.mem_cons, List.not_mem_nil, or_false] at ht
    rcases ht with rfl | rfl | rfl | rfl
    exacts [q3, q4, q5, q6]) _]
  have hdm : durationMs 16000 (accumFrom 3200 (enterRun 3200 (mkStat sig300 3200 4800))
      [mkStat sig300 3200 6400, mkStat sig300 3200 8000, mkStat sig300 3200 9600]) = 500 := by
    unfold durationMs
    rw [show (accumFrom 3200 (enterRun 3200 (mkStat sig300 3200 4800))
      [mkStat sig300 3200 6400, mkStat sig300 3200 8000,
       mkStat sig300 3200 9600]).start = 4800 from rfl]
    rw [show (accumFrom 3200 (enterRun 3200 (mkStat sig300 3200 4800))
      [mkStat sig300 3200 6400, mkStat sig300 3200 8000,
       mkStat sig300 3200 9600]).stop = 12800 from rfl]
    rw [show (((12800:ℕ):ℝ) - ((4800:ℕ):ℝ)) * 1000 / ((16000:ℕ):ℝ) = 500 by norm_num]
    rw [show (500:ℝ) = ((500:ℤ):ℝ) by norm_num, pyInt_intCast]
  rw [scanRuns_close_emit q7 (by rw [hdm]; norm_num [MIN_RUN_MS])]

lemma detect_sig300_present : (detectShout sig300 16000).present = true := by
  rw [detect_sig300_eq]; rfl

/-! ### Evaluation of `detect_shout` on the 450 ms test signal -/

lemma length_sig450 : sig450.length = 20000 := by
  simp only [sig450, blockSig, List.length_append, List.length_replicate]

lemma offsets_20000 : frameOffsets 20000 3200 1600 =
    [0, 1600, 3200, 4800, 6400, 8000, 9600, 11200, 12800, 14400, 16000] := by decide

lemma statsOf_sig450 : statsOf sig450 16000 =
    [mkStat sig450 3200 0, mkStat sig450 3200 1600, mkStat sig450 3200 3200,
     mkStat sig450 3200 4800, mkStat sig450 3200 6400, mkStat sig450 3200 8000,
     mkStat sig450 3200 9600, mkStat sig450 3200 11200, mkStat sig450 3200 12800,
     mkStat sig450 3200 14400, mkStat sig450 3200 16000] := by
  unfold statsOf
  rw [length_sig450, winOf_16000, hopOf_16000, offsets_20000]
  rfl

lemma frames_sig450 :
    frameAt sig450 0 3200 = mixFrame 3200 0 0 32768 ∧
    frameAt sig450 1600 3200 = mixFrame 3200 0 0 32768 ∧
    frameAt sig450 3200 3200 = mixFrame 3200 0 0 32768 ∧
    frameAt sig450 4800 3200 = mixFrame 1600 1600 0 32768 ∧
    frameAt sig450 6400 3200 = mixFrame 0 3200 0 32768 ∧
    frameAt sig450 8000 3200 = mixFrame 0 3200 0 32768 ∧
    frameAt sig450 9600 3200 = mixFrame 0 3200 0 32768 ∧
    frameAt sig450 11200 3200 = mixFrame 0 2400 800 32768 ∧
    frameAt sig450 12800 3200 = mixFrame 0 800 2400 32768 ∧
    frameAt sig450 14400 3200 = mixFrame 3200 0 0 32768 ∧
    frameAt sig450 16000 3200 = mixFrame 3200 0 0 32768 := by
  refine ⟨?_, ?_, ?_, ?_, ?_, ?_, ?_, ?_, ?_, ?_, ?_⟩ <;>
    (simp only [sig450, blockSig, frameAt, mixFrame, List.drop_append_eq_append_drop,
      List.take_append_eq_append_take, List.drop_replicate, List.take_replicate,
      List.length_replicate, List.length_append]
     norm_num)

lemma dbValues_sig450 : dbValues sig450 16000 =
    [-180, -180, -180, dbOfY 32768 1600, dbOfY 32768 3200, dbOfY 32768 3200,
     dbOfY 32768 3200, dbOfY 32768 2400, dbOfY 32768 800, -180, -180] := by
  obtain ⟨F0, F1, F2, F3, F4, F5, F6, F7, F8, F9, F10⟩ := frames_sig450
  unfold dbValues
  rw [statsOf_sig450]
  simp only [List.map_cons, List.map_nil]
  rw [db_mixFrame F0 (by norm_num), db_mixFrame F1 (by norm_num),
    db_mixFrame F2 (by norm_num), db_mixFrame F3 (by norm_num),
    db_mixFrame F4 (by norm_num), db_mixFrame F5 (by norm_num),
    db_mixFrame F6 (by norm_num), db_mixFrame F7 (by norm_num),
    db_mixFrame F8 (by norm_num), db_mixFrame F9 (by norm_num),
    db_mixFrame F10 (by norm_num)]
  simp only [dbOfY_zero]

lemma median_sig450 : medianNp (dbValues sig450 16000) = dbOfY 32768 800 := by
  rw [dbValues_sig450]
  have h08 : (-18:ℝ) ≤ dbOfY 32768 800 := neg18_le_dbOfY_A (by norm_num)
  have h0816 : dbOfY 32768 800 < dbOfY 32768 1600 :=
    dbOfY_strict (by norm_num) (by norm_num) (by norm_num) (by norm_num)
  have h1624 : dbOfY 32768 1600 < dbOfY 32768 2400 :=
    dbOfY_strict (by norm_num) (by norm_num) (by norm_num) (by norm_num)
  have h2432 : dbOfY 32768 2400 < dbOfY 32768 3200 :=
    dbOfY_strict (by norm_num) (by norm_num) (by norm_num) (by norm_num)
  have hn1 : ¬ (dbOfY 32768 800 ≤ (-180:ℝ)) := not_le.mpr (by linarith)
  have hn2 : ¬ (dbOfY 32768 1600 ≤ (-180:ℝ)) := not_le.mpr (by linarith)
  have hn3 : ¬ (dbOfY 32768 2400 ≤ (-180:ℝ)) := not_le.mpr (by linarith)
  have hn4 : ¬ (dbOfY 32768 3200 ≤ (-180:ℝ)) := not_le.mpr (by linarith)
  have hn5 : ¬ (dbOfY 32768 1600 ≤ dbOfY 32768 800) := not_le.mpr h0816
  have hn6 : ¬ (dbOfY 32768 2400 ≤ dbOfY 32768 800) := not_le.mpr (by linarith)
  have hn7 : ¬ (dbOfY 32768 2400 ≤ dbOfY 32768 1600) := not_le.mpr h1624
  have hn8 : ¬ (dbOfY 32768 3200 ≤ dbOfY 32768 800) := not_le.mpr (by linarith)
  have hn9 : ¬ (dbOfY 32768 3200 ≤ dbOfY 32768 1600) := not_le.mpr (by linarith)
  have hn10 : ¬ (dbOfY 32768 3200 ≤ dbOfY 32768 2400) := not_le.mpr h2432
  have hp1 : dbOfY 32768 1600 ≤ dbOfY 32768 2400 := le_of_lt h1624
  unfold medianNp
  simp only [List.insertionSort, List.orderedInsert, hn1, hn2, hn3, hn4, hn5, hn6, hn7,
    hn8, hn9, hn10, hp1, if_true, if_false, le_refl, ite_true, ite_false,
    List.length_cons, List.length_nil]
  norm_num [List.getD_cons_zero, List.getD_cons_succ]

lemma dbValues_sig450_ne : dbValues sig450 16000 ≠ [] := by
  rw [dbValues_sig450]; simp

lemma dyn_sig450 : dynThresholdOf sig450 16000 = -18 := by
  unfold dynThresholdOf dynamicThreshold medianDb
  rw [if_neg dbValues_sig450_ne, median_sig450,
    show (THRESH_DBFS:ℝ) = -18 from rfl]
  have h08 : (-18:ℝ) ≤ dbOfY 32768 800 := neg18_le_dbOfY_A (by norm_num)
  rw [min_eq_left (by linarith)]

/-- Full evaluation on the 450 ms signal: `detect_shout` emits the run
spanning the frames at offsets 4800–12800, i.e. samples [4800, 16000). -/
lemma detect_sig450_eq : detectShout sig450 16000 =
    emitResult 16000 (accumFrom 3200 (enterRun 3200 (mkStat sig450 3200 4800))
      [mkStat sig450 3200 6400, mkStat sig450 3200 8000, mkStat sig450 3200 9600,
       mkStat sig450 3200 11200, mkStat sig450 3200 12800]) := by
  obtain ⟨F0, F1, F2, F3, F4, F5, F6, F7, F8, F9, F10⟩ := frames_sig450
  have hdb0 : (mkStat sig450 3200 0).db = -180 := by
    rw [db_mixFrame F0 (by norm_num), dbOfY_zero]
  have hdb1 : (mkStat sig450 3200 1600).db = -180 := by
    rw [db_mixFrame F1 (by norm_num), dbOfY_zero]
  have hdb2 : (mkStat sig450 3200 3200).db = -180 := by
    rw [db_mixFrame F2 (by norm_num), dbOfY_zero]
  have hdb9 : (mkStat sig450 3200 14400).db = -180 := by
    rw [db_mixFrame F9 (by norm_num), dbOfY_zero]
  have q0 : ¬ qualifies (-18:ℝ) (mkStat sig450 3200 0) :=
    not_qualifies_of_db (by rw [hdb0]; norm_num)
  have q1 : ¬ qualifies (-18:ℝ) (mkStat sig450 3200 1600) :=
    not_qualifies_of_db (by rw [hdb1]; norm_num)
  have q2 : ¬ qualifies (-18:ℝ) (mkStat sig450 3200 3200) :=
    not_qualifies_of_db (by rw [hdb2]; norm_num)
  have q9 : ¬ qualifies (-18:ℝ) (mkStat sig450 3200 14400) :=
    not_qualifies_of_db (by rw [hdb9]; norm_num)
  have q3 : qualifies (-18:ℝ) (mkStat sig450 3200 4800) :=
    qualifies_mix (by norm_num) (by norm_num) (by norm_num) F3
      (neg18_le_dbOfY_A (by norm_num))
  have q4 : qualifies (-18:ℝ) (mkStat sig450 3200 6400) :=
    qualifies_mix (by norm_num) (by norm_num) (by norm_num) F4
      (neg18_le_dbOfY_A (by norm_num))
  have q5 : qualifies (-18:ℝ) (mkStat sig450 3200 8000) :=
    qualifies_mix (by norm_num) (by norm_num) (by norm_num) F5
      (neg18_le_dbOfY_A (by norm_num))
  have q6 : qualifies (-18:ℝ) (mkStat sig450 3200 9600) :=
    qualifies_mix (by norm_num) (by norm_num) (by norm_num) F6
      (neg18_le_dbOfY_A (by norm_num))
  have q7 : qualifies (-18:ℝ) (mkStat sig450 3200 11200) :=
    qualifies_mix (by norm_num) (by norm_num) (by norm_num) F7
      (neg18_le_dbOfY_A (by norm_num))
  have q8 : qualifies (-18:ℝ) (mkStat sig450 3200 12800) :=
    qualifies_mix (by norm_num) (by norm_num) (by norm_num) F8
      (neg18_le_dbOfY_A (by norm_num))
  unfold detectShout
  rw [if_neg (by rw [statsOf_sig450]; simp), winOf_16000, dyn_sig450, statsOf_sig450]
  show scanRuns 16000 3200 (-18)
      ([mkStat sig450 3200 0, mkStat sig450 3200 1600, mkStat sig450 3200 3200] ++
       ([mkStat sig450 3200 4800, mkStat sig450 3200 6400, mkStat sig450 3200 8000,
         mkStat sig450 3200 9600, mkStat sig450 3200 11200, mkStat sig450 3200 12800] ++
        [mkStat sig450 3200 14400, mkStat sig450 3200 16000]))
      none = _
  rw [scanRuns_skip 16000 3200 _ (by
    intro s hs
    simp only [List.mem_cons, List.not_mem_nil, or_false] at hs
    rcases hs with rfl | rfl | rfl
    exacts [q0, q1, q2]) _]
  rw [scanRuns_enter_block 16000 3200 (by
    intro t ht
    simp only [List.mem_cons, List.not_mem_nil, or_false] at ht
    rcases ht with rfl | rfl | rfl | rfl | rfl | rfl
    exacts [q3, q4, q5, q6, q7, q8]) _]
  have hdm : durationMs 16000 (accumFrom 3200 (enterRun 3200 (mkStat sig450 3200 4800))
      [mkStat sig450 3200 6400, mkStat sig450 3200 8000, mkStat sig450 3200 9600,
       mkStat sig450 3200 11200, mkStat sig450 3200 12800]) = 700 := by
    unfold durationMs
    rw [show (accumFrom 3200 (enterRun 3200 (mkStat sig450 3200 4800))
      [mkStat sig450 3200 6400, mkStat sig450 3200 8000, mkStat sig450 3200 9600,
       mkStat sig450 3200 11200, mkStat sig450 3200 12800]).start = 4800 from rfl]
    rw [show (accumFrom 3200 (enterRun 3200 (mkStat sig450 3200 4800))
      [mkStat sig450 3200 6400, mkStat sig450 3200 8000, mkStat sig450 3200 9600,
       mkStat sig450 3200 11200, mkStat sig450 3200 12800]).stop = 16000 from rfl]
    rw [show (((16000:ℕ):ℝ) - ((4800:ℕ):ℝ)) * 1000 / ((16000:ℕ):ℝ) = 700 by norm_num]
    rw [show (700:ℝ) = ((700:ℤ):ℝ) by norm_num, pyInt_intCast]
  rw [scanRuns_close_emit q9 (by rw [hdm]; norm_num [MIN_RUN_MS])]

lemma detect_sig450_present : (detectShout sig450 16000).present = true := by
  rw [detect_sig450_eq]; rfl

/-! ### Evaluation of `detect_shout` on the quiet (−125 dBFS) signal -/

lemma foldl_max_le_of : ∀ (l : List α) (a c : α), a ≤ c → (∀ x ∈ l, x ≤ c) →
    l.foldl max a ≤ c := by
  intro l
  induction l with
  | nil => intro a c ha _; exact ha
  | cons b t ih =>
      intro a c ha hx
      rw [List.foldl_cons]
      exact ih (max a b) c (max_le ha (hx b (List.mem_cons_self b t)))
        (fun x hxt => hx x (List.mem_cons_of_mem b hxt))

lemma pyRound2_neg120 : pyRound2 ((-120:ℝ)) = -120 := by
  rw [pyRound2_eq_of_mul_eq (show (-120:ℝ)*100 = ((-12000:ℤ):ℝ) by norm_num)]
  norm_num

lemma pyRound2_neg125 : pyRound2 ((-125:ℝ)) = -125 := by
  rw [pyRound2_eq_of_mul_eq (show (-125:ℝ)*100 = ((-12500:ℤ):ℝ) by norm_num)]
  norm_num

lemma length_sigQuiet : sigQuiet.length = 19200 := by
  simp only [sigQuiet, blockSig, List.length_append, List.length_replicate]

lemma offsets_19200 : frameOffsets 19200 3200 1600 =
    [0, 1600, 3200, 4800, 6400, 8000, 9600, 11200, 12800, 14400, 16000] := by decide

lemma statsOf_sigQuiet : statsOf sigQuiet 16000 =
    [mkStat sigQuiet 3200 0, mkStat sigQuiet 3200 1600, mkStat sigQuiet 3200 3200,
     mkStat sigQuiet 3200 4800, mkStat sigQuiet 3200 6400, mkStat sigQuiet 3200 8000,
     mkStat sigQuiet 3200 9600, mkStat sigQuiet 3200 11200, mkStat sigQuiet 3200 12800,
     mkStat sigQuiet 3200 14400, mkStat sigQuiet 3200 16000] := by
  unfold statsOf
  rw [length_sigQuiet, winOf_16000, hopOf_16000, offsets_19200]
  rfl

lemma frames_sigQuiet :
    frameAt sigQuiet 0 3200 = mixFrame 3200 0 0 cAmp ∧
    frameAt sigQuiet 1600 3200 = mixFrame 3200 0 0 cAmp ∧
    frameAt sigQuiet 3200 3200 = mixFrame 3200 0 0 cAmp ∧
    frameAt sigQuiet 4800 3200 = mixFrame 1600 1600 0 cAmp ∧
    frameAt sigQuiet 6400 3200 = mixFrame 0 3200 0 cAmp ∧
    frameAt sigQuiet 8000 3200 = mixFrame 0 3200 0 cAmp ∧
    frameAt sigQuiet 9600 3200 = mixFrame 0 3200 0 cAmp ∧
    frameAt sigQuiet 11200 3200 = mixFrame 0 1600 1600 cAmp ∧
    frameAt sigQuiet 12800 3200 = mixFrame 3200 0 0 cAmp ∧
    frameAt sigQuiet 14400 3200 = mixFrame 3200 0 0 cAmp ∧
    frameAt sigQuiet 16000 3200 = mixFrame 3200 0 0 cAmp := by
  refine ⟨?_, ?_, ?_, ?_, ?_, ?_, ?_, ?_, ?_, ?_, ?_⟩ <;>
    (simp only [sigQuiet, blockSig, frameAt, mixFrame, List.drop_append_eq_append_drop,
      List.take_append_eq_append_take, List.drop_replicate, List.take_replicate,
      List.length_replicate, List.length_append]
     norm_num)

lemma cAmp_floor_half : (1e-9:ℝ) ≤ (cAmp/2)/32768 := by
  have := cAmp_lb
  rw [div_div, le_div_iff₀ (by norm_num : (0:ℝ) < 2 * 32768)]
  linarith

lemma dbOfY_quiet_1600_lt : dbOfY cAmp 1600 < -125 := by
  have h := dbOfY_strict cAmp_pos cAmp_floor_half
    (show 800 ≤ 1600 by norm_num) (show 1600 < 3200 by norm_num)
  rw [dbOfY_quiet_full] at h
  exact h

lemma dbValues_sigQuiet : dbValues sigQuiet 16000 =
    [-180, -180, -180, dbOfY cAmp 1600, -125, -125, -125, dbOfY cAmp 1600,
     -180, -180, -180] := by
  obtain ⟨F0, F1, F2, F3, F4, F5, F6, F7, F8, F9, F10⟩ := frames_sigQuiet
  unfold dbValues
  rw [statsOf_sigQuiet]
  simp only [List.map_cons, List.map_nil]
  rw [db_mixFrame F0 (by norm_num), db_mixFrame F1 (by norm_num),
    db_mixFrame F2 (by norm_num), db_mixFrame F3 (by norm_num),
    db_mixFrame F4 (by norm_num), db_mixFrame F5 (by norm_num),
    db_mixFrame F6 (by norm_num), db_mixFrame F7 (by norm_num),
    db_mixFrame F8 (by norm_num), db_mixFrame F9 (by norm_num),
    db_mixFrame F10 (by norm_num)]
  simp only [dbOfY_zero, dbOfY_quiet_full]

lemma median_sigQuiet : medianNp (dbValues sigQuiet 16000) = -180 := by
  rw [dbValues_sigQuiet]
  have h160 : (-160:ℝ) ≤ dbOfY cAmp 1600 := neg160_le_dbOfY_quiet (by norm_num)
  have hlt : dbOfY cAmp 1600 < -125 := dbOfY_quiet_1600_lt
  have hn1 : ¬ (dbOfY cAmp 1600 ≤ (-180:ℝ)) := not_le.mpr (by linarith)
  have hn2 : ¬ ((-125:ℝ) ≤ -180) := by norm_num
  have hn3 : ¬ ((-125:ℝ) ≤ dbOfY cAmp 1600) := not_le.mpr hlt
  unfold medianNp
  simp only [List.insertionSort, List.orderedInsert, hn1, hn2, hn3, if_true, if_false,
    le_refl, ite_true, ite_false, List.length_cons, List.length_nil]
  norm_num [List.getD_cons_zero, List.getD_cons_succ]

lemma dbValues_sigQuiet_ne : dbValues sigQuiet 16000 ≠ [] := by
  rw [dbValues_sigQuiet]; simp

lemma dyn_sigQuiet : dynThresholdOf sigQuiet 16000 = -160 := by
  unfold dynThresholdOf dynamicThreshold medianDb
  rw [if_neg dbValues_sigQuiet_ne, median_sigQuiet,
    show (THRESH_DBFS:ℝ) = -18 from rfl,
    show (-180 + 20 : ℝ) = -160 by norm_num,
    min_eq_right (by norm_num : (-160:ℝ) ≤ -18)]

/-- Full evaluation on the quiet signal: `detect_shout` emits the run
spanning the frames at offsets 4800–11200, i.e. samples [4800, 14400),
all of whose frames are quieter than −120 dBFS. -/
lemma detect_sigQuiet_eq : detectShout sigQuiet 16000 =
    emitResult 16000 (accumFrom 3200 (enterRun 3200 (mkStat sigQuiet 3200 4800))
      [mkStat sigQuiet 3200 6400, mkStat sigQuiet 3200 8000, mkStat sigQuiet 3200 9600,
       mkStat sigQuiet 3200 11200]) := by
  obtain ⟨F0, F1, F2, F3, F4, F5, F6, F7, F8, F9, F10⟩ := frames_sigQuiet
  have h160a : (-160:ℝ) ≤ dbOfY cAmp 1600 := neg160_le_dbOfY_quiet (by norm_num)
  have h160b : (-160:ℝ) ≤ dbOfY cAmp 3200 := neg160_le_dbOfY_quiet (by norm_num)
  have hdb0 : (mkStat sigQuiet 3200 0).db = -180 := by
    rw [db_mixFrame F0 (by norm_num), dbOfY_zero]
  have hdb1 : (mkStat sigQuiet 3200 1600).db = -180 := by
    rw [db_mixFrame F1 (by norm_num), dbOfY_zero]
  have hdb2 : (mkStat sigQuiet 3200 3200).db = -180 := by
    rw [db_mixFrame F2 (by norm_num), dbOfY_zero]
  have hdb8 : (mkStat sigQuiet 3200 12800).db = -180 := by
    rw [db_mixFrame F8 (by norm_num), dbOfY_zero]
  have q0 : ¬ qualifies (-160:ℝ) (mkStat sigQuiet 3200 0) :=
    not_qualifies_of_db (by rw [hdb0]; norm_num)
  have q1 : ¬ qualifies (-160:ℝ) (mkStat sigQuiet 3200 1600) :=
    not_qualifies_of_db (by rw [hdb1]; norm_num)
  have q2 : ¬ qualifies (-160:ℝ) (mkStat sigQuiet 3200 3200) :=
    not_qualifies_of_db (by rw [hdb2]; norm_num)
  have q8 : ¬ qualifies (-160:ℝ) (mkStat sigQuiet 3200 12800) :=
    not_qualifies_of_db (by rw [hdb8]; norm_num)
  have q3 : qualifies (-160:ℝ) (mkStat sigQuiet 3200 4800) :=
    qualifies_mix cAmp_pos (by norm_num) (by norm_num) F3 h160a
  have q4 : qualifies (-160:ℝ) (mkStat sigQuiet 3200 6400) :=
    qualifies_mix cAmp_pos (by norm_num) (by norm_num) F4 h160b
  have q5 : qualifies (-160:ℝ) (mkStat sigQuiet 3200 8000) :=
    qualifies_mix cAmp_pos (by norm_num) (by norm_num) F5 h160b
  have q6 : qualifies (-160:ℝ) (mkStat sigQuiet 3200 9600) :=
    qualifies_mix cAmp_pos (by norm_num) (by norm_num) F6 h160b
  have q7 : qualifies (-160:ℝ) (mkStat sigQuiet 3200 11200) :=
    qualifies_mix cAmp_pos (by norm_num) (by norm_num) F7 h160a
  unfold detectShout
  rw [if_neg (by rw [statsOf_sigQuiet]; simp), winOf_16000, dyn_sigQuiet, statsOf_sigQuiet]
  show scanRuns 16000 3200 (-160)
      ([mkStat sigQuiet 3200 0, mkStat sigQuiet 3200 1600, mkStat sigQuiet 3200 3200] ++
       ([mkStat sigQuiet 3200 4800, mkStat sigQuiet 3200 6400, mkStat sigQuiet 3200 8000,
         mkStat sigQuiet 3200 9600, mkStat sigQuiet 3200 11200] ++
        [mkStat sigQuiet 3200 12800, mkStat sigQuiet 3200 14400, mkStat sigQuiet 3200 16000]))
      none = _
  rw [scanRuns_skip 16000 3200 _ (by
    intro s hs
    simp only [List.mem_cons, List.not_mem_nil, or_false] at hs
    rcases hs with rfl | rfl | rfl
    exacts [q0, q1, q2]) _]
  rw [scanRuns_enter_block 16000 3200 (by
    intro t ht
    simp only [List.mem_cons, List.not_mem_nil, or_false] at ht
    rcases ht with rfl | rfl | rfl | rfl | rfl
    exacts [q3, q4, q5, q6, q7]) _]
  have hdm : durationMs 16000 (accumFrom 3200 (enterRun 3200 (mkStat sigQuiet 3200 4800))
      [mkStat sigQuiet 3200 6400, mkStat sigQuiet 3200 8000, mkStat sigQuiet 3200 9600,
       mkStat sigQuiet 3200 11200]) = 600 := by
    unfold durationMs
    rw [show (accumFrom 3200 (enterRun 3200 (mkStat sigQuiet 3200 4800))
      [mkStat sigQuiet 3200 6400, mkStat sigQuiet 3200 8000, mkStat sigQuiet 3200 9600,
       mkStat sigQuiet 3200 11200]).start = 4800 from rfl]
    rw [show (accumFrom 3200 (enterRun 3200 (mkStat sigQuiet 3200 4800))
      [mkStat sigQuiet 3200 6400, mkStat sigQuiet 3200 8000, mkStat sigQuiet 3200 9600,
       mkStat sigQuiet 3200 11200]).stop = 14400 from rfl]
    rw [show (((14400:ℕ):ℝ) - ((4800:ℕ):ℝ)) * 1000 / ((16000:ℕ):ℝ) = 600 by norm_num]
    rw [show (600:ℝ) = ((600:ℤ):ℝ) by norm_num, pyInt_intCast]
  rw [scanRuns_close_emit q8 (by rw [hdm]; norm_num [MIN_RUN_MS])]

/-- The emitted peak on the quiet signal is the −120 sentinel even though
every frame of the run is at most −125 dBFS. -/
lemma peak_sigQuiet : (accumFrom 3200 (enterRun 3200 (mkStat sigQuiet 3200 4800))
    [mkStat sigQuiet 3200 6400, mkStat sigQuiet 3200 8000, mkStat sigQuiet 3200 9600,
     mkStat sigQuiet 3200 11200]).peak = -120 := by
  obtain ⟨F0, F1, F2, F3, F4, F5, F6, F7, F8, F9, F10⟩ := frames_sigQuiet
  have hd3 : (mkStat sigQuiet 3200 4800).db = dbOfY cAmp 1600 :=
    db_mixFrame F3 (by norm_num)
  have hd4 : (mkStat sigQuiet 3200 6400).db = -125 := by
    rw [db_mixFrame F4 (by norm_num), dbOfY_quiet_full]
  have hd5 : (mkStat sigQuiet 3200 8000).db = -125 := by
    rw [db_mixFrame F5 (by norm_num), dbOfY_quiet_full]
  have hd6 : (mkStat sigQuiet 3200 9600).db = -125 := by
    rw [db_mixFrame F6 (by norm_num), dbOfY_quiet_full]
  have hd7 : (mkStat sigQuiet 3200 11200).db = dbOfY cAmp 1600 :=
    db_mixFrame F7 (by norm_num)
  have hlt : dbOfY cAmp 1600 < -125 := dbOfY_quiet_1600_lt
  rw [accumFrom_enter_peak]
  have hfold : runMaxDb (mkStat sigQuiet 3200 4800)
      [mkStat sigQuiet 3200 6400, mkStat sigQuiet 3200 8000, mkStat sigQuiet 3200 9600,
       mkStat sigQuiet 3200 11200] ≤ -125 := by
    unfold runMaxDb
    simp only [List.map_cons, List.map_nil]
    apply foldl_max_le_of
    · rw [hd3]; linarith
    · intro x hx
      simp only [List.mem_cons, List.not_mem_nil, or_false] at hx
      rcases hx with rfl | rfl | rfl | rfl
      · rw [hd4]
      · rw [hd5]
      · rw [hd6]
      · rw [hd7]; linarith
  rw [max_eq_left (by linarith)]

/-- The maximum dBFS over the frames of the emitted run on the quiet
signal is exactly −125. -/
lemma runMaxDb_sigQuiet : runMaxDb (mkStat sigQuiet 3200 4800)
    [mkStat sigQuiet 3200 6400, mkStat sigQuiet 3200 8000, mkStat sigQuiet 3200 9600,
     mkStat sigQuiet 3200 11200] = -125 := by
  obtain ⟨F0, F1, F2, F3, F4, F5, F6, F7, F8, F9, F10⟩ := frames_sigQuiet
  have hd3 : (mkStat sigQuiet 3200 4800).db = dbOfY cAmp 1600 :=
    db_mixFrame F3 (by norm_num)
  have hd4 : (mkStat sigQuiet 3200 6400).db = -125 := by
    rw [db_mixFrame F4 (by norm_num), dbOfY_quiet_full]
  have hd5 : (mkStat sigQuiet 3200 8000).db = -125 := by
    rw [db_mixFrame F5 (by norm_num), dbOfY_quiet_full]
  have hd6 : (mkStat sigQuiet 3200 9600).db = -125 := by
    rw [db_mixFrame F6 (by norm_num), dbOfY_quiet_full]
  have hd7 : (mkStat sigQuiet 3200 11200).db = dbOfY cAmp 1600 :=
    db_mixFrame F7 (by norm_num)
  have hlt : dbOfY cAmp 1600 < -125 := dbOfY_quiet_1600_lt
  unfold runMaxDb
  simp only [List.map_cons, List.map_nil, List.foldl_cons, List.foldl_nil]
  rw [hd3, hd4, hd5, hd6, hd7]
  rw [max_eq_right (le_of_lt hlt), max_self, max_self, max_eq_left (le_of_lt hlt)]

/-- Every frame of the quiet signal is at most −125 dBFS. -/
lemma all_db_le_sigQuiet : ∀ s ∈ statsOf sigQuiet 16000, s.db ≤ -125 := by
  obtain ⟨F0, F1, F2, F3, F4, F5, F6, F7, F8, F9, F10⟩ := frames_sigQuiet
  have hlt : dbOfY cAmp 1600 < -125 := dbOfY_quiet_1600_lt
  intro s hs
  rw [statsOf_sigQuiet] at hs
  simp only [List.mem_cons, List.not_mem_nil, or_false] at hs
  rcases hs with rfl | rfl | rfl | rfl | rfl | rfl | rfl | rfl | rfl | rfl | rfl
  · rw [db_mixFrame F0 (by norm_num), dbOfY_zero]; norm_num
  · rw [db_mixFrame F1 (by norm_num), dbOfY_zero]; norm_num
  · rw [db_mixFrame F2 (by norm_num), dbOfY_zero]; norm_num
  · rw [db_mixFrame F3 (by norm_num)]; linarith
  · rw [db_mixFrame F4 (by norm_num), dbOfY_quiet_full]
  · rw [db_mixFrame F5 (by norm_num), dbOfY_quiet_full]
  · rw [db_mixFrame F6 (by norm_num), dbOfY_quiet_full]
  · rw [db_mixFrame F7 (by norm_num)]; linarith
  · rw [db_mixFrame F8 (by norm_num), dbOfY_zero]; norm_num
  · rw [db_mixFrame F9 (by norm_num), dbOfY_zero]; norm_num
  · rw [db_mixFrame F10 (by norm_num), dbOfY_zero]; norm_num

/-! ### All-zero signals of arbitrary length -/

lemma mem_frameOffsetsAux {len win hop : ℕ} :
    ∀ (fuel off o : ℕ), o ∈ frameOffsetsAux len win hop fuel off → o + win ≤ len := by
  intro fuel
  induction fuel with
  | zero => intro off o h; cases h
  | succ n ih =>
      intro off o h
      rw [frameOffsetsAux] at h
      by_cases hc : off + win ≤ len
      · rw [if_pos hc] at h
        rcases List.mem_cons.mp h with rfl | h
        · exact hc
        · exact ih _ o h
      · rw [if_neg hc] at h
        cases h

lemma mem_frameOffsets {len win hop o : ℕ} (h : o ∈ frameOffsets len win hop) :
    o + win ≤ len :=
  mem_frameOffsetsAux _ _ o h

lemma frameOffsets_eq_nil {len win : ℕ} (h : len < win) (hop : ℕ) :
    frameOffsets len win hop = [] := by
  unfold frameOffsets
  rw [frameOffsetsAux, if_neg (by omega)]

lemma frameAt_replicate_zero {n o w : ℕ} (h : o + w ≤ n) :
    frameAt (List.replicate n (0:ℝ)) o w = List.replicate w 0 := by
  unfold frameAt
  rw [List.drop_replicate, List.take_replicate]
  congr 1
  omega

lemma mixFrame_sil : mixFrame 3200 0 0 (0:ℝ) = List.replicate 3200 (0:ℝ) := by
  simp only [mixFrame, List.replicate_zero, List.append_nil]

/-- Every frame of an all-zero signal is at exactly −180 dBFS. -/
lemma silence_stats_db {n : ℕ} :
    ∀ s ∈ statsOf (List.replicate n (0:ℝ)) 16000, s.db = -180 := by
  intro s hs
  unfold statsOf at hs
  rcases List.mem_map.mp hs with ⟨o, ho, rfl⟩
  rw [List.length_replicate, winOf_16000, hopOf_16000] at ho
  have hb : o + 3200 ≤ n := mem_frameOffsets ho
  rw [winOf_16000]
  have hf : frameAt (List.replicate n (0:ℝ)) o 3200 = mixFrame 3200 0 0 0 := by
    rw [frameAt_replicate_zero hb, ← mixFrame_sil]
  rw [db_mixFrame hf (by norm_num), dbOfY_zero]

lemma map_const_replicate {β : Type} (c : β) :
    ∀ (l : List ℕ), l.map (fun _ => c) = List.replicate l.length c := by
  intro l
  induction l with
  | nil => rfl
  | cons a t ih => simp [List.replicate_succ, ih]

lemma dbValues_silence {n : ℕ} :
    dbValues (List.replicate n (0:ℝ)) 16000 =
      List.replicate (statsOf (List.replicate n (0:ℝ)) 16000).length (-180) := by
  unfold dbValues
  rw [List.map_congr_left (fun s hs => silence_stats_db s hs)]
  have := map_const_replicate (-180:ℝ) ((statsOf (List.replicate n (0:ℝ)) 16000).map
    (fun s => s.idx))
  calc (statsOf (List.replicate n (0:ℝ)) 16000).map (fun _ => (-180:ℝ))
      = List.replicate (statsOf (List.replicate n (0:ℝ)) 16000).length (-180) := by
        induction (statsOf (List.replicate n (0:ℝ)) 16000) with
        | nil => rfl
        | cons a t ih => simp [List.replicate_succ, ih]

lemma sorted_replicate (k : ℕ) (c : ℝ) :
    List.Sorted (fun a b => a ≤ b) (List.replicate k c) := by
  induction k with
  | zero => exact List.sorted_nil
  | succ n ih =>
      rw [List.replicate_succ, List.sorted_cons]
      exact ⟨fun b hb => le_of_eq (List.eq_of_mem_replicate hb).symm, ih⟩

lemma insertionSort_replicate (k : ℕ) (c : ℝ) :
    List.insertionSort (fun a b => a ≤ b) (List.replicate k c) = List.replicate k c :=
  List.eq_of_perm_of_sorted (List.perm_insertionSort _ _)
    (List.sorted_insertionSort _ _) (sorted_replicate k c)

lemma getD_replicate {c : ℝ} : ∀ (k i : ℕ), i < k →
    (List.replicate k c).getD i 0 = c := by
  intro k
  induction k with
  | zero => intro i h; omega
  | succ n ih =>
      intro i h
      rw [List.replicate_succ]
      match i with
      | 0 => rfl
      | j + 1 => exact ih j (by omega)

lemma medianNp_replicate {k : ℕ} (hk : 1 ≤ k) (c : ℝ) :
    medianNp (List.replicate k c) = c := by
  unfold medianNp
  rw [List.length_replicate, insertionSort_replicate]
  by_cases hodd : k % 2 = 1
  · rw [if_pos hodd, getD_replicate k (k / 2) (by omega)]
  · rw [if_neg hodd, getD_replicate k (k / 2 - 1) (by omega),
      getD_replicate k (k / 2) (by omega)]
    ring

/-- The adaptive threshold on a nonempty all-zero signal is −160 dBFS. -/
lemma dyn_silence {n : ℕ} (h : 3200 ≤ n) :
    dynThresholdOf (List.replicate n (0:ℝ)) 16000 = -160 := by
  have hne : statsOf (List.replicate n (0:ℝ)) 16000 ≠ [] := by
    unfold statsOf
    rw [List.length_replicate, winOf_16000, hopOf_16000]
    intro hc
    rw [List.map_eq_nil_iff] at hc
    have : (0:ℕ) ∈ frameOffsets n 3200 1600 := by
      unfold frameOffsets
      rw [frameOffsetsAux, if_pos (by omega)]
      exact List.mem_cons_self _ _
    rw [hc] at this
    cases this
  have hk : 1 ≤ (statsOf (List.replicate n (0:ℝ)) 16000).length :=
    List.length_pos.mpr hne
  unfold dynThresholdOf dynamicThreshold medianDb
  rw [if_neg (show ¬ dbValues (List.replicate n (0:ℝ)) 16000 = [] by
      rw [dbValues_silence]
      intro hc
      have hlen := congrArg List.length hc
      rw [List.length_replicate, List.length_nil] at hlen
      omega), dbValues_silence,
    medianNp_replicate hk, show (THRESH_DBFS:ℝ) = -18 from rfl,
    show (-180 + 20 : ℝ) = -160 by norm_num,
    min_eq_right (by norm_num : (-160:ℝ) ≤ -18)]

/-- No frame of an all-zero signal qualifies. -/
lemma silence_no_qualify {n : ℕ} :
    ∀ s ∈ statsOf (List.replicate n (0:ℝ)) 16000,
      ¬ qualifies (dynThresholdOf (List.replicate n (0:ℝ)) 16000) s := by
  intro s hs
  have hn : 3200 ≤ n := by
    unfold statsOf at hs
    rcases List.mem_map.mp hs with ⟨o, ho, rfl⟩
    rw [List.length_replicate, winOf_16000, hopOf_16000] at ho
    have := mem_frameOffsets ho
    omega
  rw [dyn_silence hn]
  exact not_qualifies_of_db (by rw [silence_stats_db s hs]; norm_num)

/-- A short signal produces no frames: the immediate absent return of
lines 84-87 of shout_service.py. -/
lemma detectShout_short {sig : List ℝ} {sr : ℕ} (h : sig.length < winOf sr) :
    detectShout sig sr = absentResult := by
  unfold detectShout
  rw [if_pos (by unfold statsOf; rw [frameOffsets_eq_nil h]; rfl)]

/-- When no frame qualifies, the scan falls through to the absent
result. -/
lemma detectShout_absent_of_no_qualify {sig : List ℝ} {sr : ℕ}
    (h : ∀ s ∈ statsOf sig sr, ¬ qualifies (dynThresholdOf sig sr) s) :
    detectShout sig sr = absentResult := by
  unfold detectShout
  by_cases hc : statsOf sig sr = []
  · rw [if_pos hc]
  · rw [if_neg hc, ← List.append_nil (statsOf sig sr),
      scanRuns_skip sr (winOf sr) _ h [], scanRuns_nil_none]

/-- An all-zero signal (of any length) yields the absent result. -/
lemma detect_silence {n : ℕ} :
    detectShout (List.replicate n (0:ℝ)) 16000 = absentResult :=
  detectShout_absent_of_no_qualify silence_no_qualify

lemma offsets_3200 : frameOffsets 3200 3200 1600 = [0] := by decide

lemma statsOf_rep3200 : statsOf (List.replicate 3200 (0:ℝ)) 16000 =
    [mkStat (List.replicate 3200 (0:ℝ)) 3200 0] := by
  unfold statsOf
  rw [List.length_replicate, winOf_16000, hopOf_16000, offsets_3200]
  rfl

/-! ### Bounds on the reported peak for reference-bounded signals -/

lemma rms_le_of_bounded {seg : List ℝ} (h : ∀ x ∈ seg, |x| ≤ 32768) :
    rms seg ≤ 32768 + 1e-9 := by
  unfold rms
  suffices hs : Real.sqrt ((seg.map (fun x => x ^ 2)).sum / (seg.length : ℝ)) ≤ 32768 by
    linarith
  have key : (seg.map (fun x => x ^ 2)).sum / (seg.length : ℝ) ≤ 32768^2 := by
    rcases List.eq_nil_or_concat seg with rfl | _
    · simp
    · have hx2 : ∀ z ∈ seg.map (fun x => x ^ 2), z ≤ (32768:ℝ)^2 := by
        intro z hz
        rcases List.mem_map.mp hz with ⟨x, hx, rfl⟩
        calc x ^ 2 = |x| ^ 2 := (sq_abs x).symm
        _ ≤ (32768:ℝ)^2 := pow_le_pow_left₀ (abs_nonneg x) (h x hx) 2
      have hsum := List.sum_le_card_nsmul (seg.map (fun x => x ^ 2)) ((32768:ℝ)^2) hx2
      rw [List.length_map, nsmul_eq_mul] at hsum
      rcases Nat.eq_zero_or_pos seg.length with hlen | hlen
      · rw [hlen]; norm_num
      · have hlenR : (0:ℝ) < (seg.length : ℝ) := by exact_mod_cast hlen
        rw [div_le_iff₀ hlenR]
        calc (seg.map (fun x => x ^ 2)).sum ≤ (seg.length : ℝ) * 32768^2 := hsum
        _ = 32768^2 * (seg.length : ℝ) := by ring
  calc Real.sqrt ((seg.map (fun x => x ^ 2)).sum / (seg.length : ℝ))
      ≤ Real.sqrt ((32768:ℝ)^2) := Real.sqrt_le_sqrt key
  _ = 32768 := Real.sqrt_sq (by norm_num)

lemma dbfs_le_of_rms_le {r : ℝ} (h : r ≤ 32768 + 1e-9) : dbfsFromRms r ≤ 1/500 := by
  unfold dbfsFromRms
  have hmax : max (r / 32768) 1e-9 ≤ 1 + 1e-9/32768 := by
    apply max_le ?_ (by norm_num)
    calc r / 32768 ≤ (32768 + 1e-9) / 32768 :=
      div_le_div_of_nonneg_right h (by norm_num)
    _ = 1 + 1e-9/32768 := by ring
  have hposmax : (0:ℝ) < max (r / 32768) 1e-9 :=
    lt_of_lt_of_le (by norm_num) (le_max_right _ _)
  have hlog : Real.log (max (r / 32768) 1e-9) ≤ Real.log (1 + 1e-9/32768) :=
    Real.log_le_log hposmax hmax
  have hε : Real.log (1 + 1e-9/32768) ≤ 1e-9/32768 := by
    have := Real.log_le_sub_one_of_pos (show (0:ℝ) < 1 + 1e-9/32768 by norm_num)
    linarith
  have hlog10 : 1 ≤ Real.log 10 := by
    rw [Real.le_log_iff_exp_le (by norm_num : (0:ℝ) < 10)]
    calc Real.exp 1 ≤ 2.7182818286 := le_of_lt Real.exp_one_lt_d9
    _ ≤ 10 := by norm_num
  have hlogb : Real.logb 10 (max (r / 32768) 1e-9) ≤ 1e-9/32768 := by
    rw [Real.logb]
    rcases le_or_lt 0 (Real.log (max (r / 32768) 1e-9)) with hpos | hneg
    · calc Real.log (max (r / 32768) 1e-9) / Real.log 10
          ≤ Real.log (max (r / 32768) 1e-9) := div_le_self hpos hlog10
      _ ≤ 1e-9/32768 := le_trans hlog hε
    · have : Real.log (max (r / 32768) 1e-9) / Real.log 10 < 0 :=
        div_neg_of_neg_of_pos hneg (by linarith)
      linarith
  linarith

/-- Every frame of a reference-bounded signal sits at most marginally
above 0 dBFS (at most 1/200 dB, which rounds down to 0). -/
lemma stats_db_le {sig : List ℝ} {sr : ℕ} (hb : ∀ x ∈ sig, |x| ≤ 32768) :
    ∀ s ∈ statsOf sig sr, s.db ≤ 1/500 := by
  intro s hs
  unfold statsOf at hs
  rcases List.mem_map.mp hs with ⟨o, _, rfl⟩
  have hseg : ∀ x ∈ frameAt sig o (winOf sr), |x| ≤ 32768 := by
    intro x hx
    unfold frameAt at hx
    exact hb x (List.mem_of_mem_drop (List.mem_of_mem_take hx))
  exact dbfs_le_of_rms_le (rms_le_of_bounded hseg)

/-! ### Gate-value helpers over `ℚ` for the executable witnesses -/

lemma gateQ_6400 : MIN_RUN_MS ≤ durationMs 16000
    (accumFrom 3200 (enterRun 3200 (⟨0, 0, 0⟩ : FrameStat ℚ))
      [⟨1600, -3, 0⟩, ⟨3200, -1, 5⟩]) := by
  norm_num [durationMs, pyInt, accumFrom, enterRun, MIN_RUN_MS]

lemma gateQ_6400' : MIN_RUN_MS ≤ durationMs 16000
    (accumFrom 3200 (enterRun 3200 (⟨0, 0, 0⟩ : FrameStat ℚ))
      [⟨1600, 0, 0⟩, ⟨3200, 0, 0⟩]) := by
  norm_num [durationMs, pyInt, accumFrom, enterRun, MIN_RUN_MS]

lemma gateQ_3200_fail : ¬ MIN_RUN_MS ≤ durationMs 16000
    (accumFrom 3200 (enterRun 3200 (⟨0, 0, 0⟩ : FrameStat ℚ)) []) := by
  norm_num [durationMs, pyInt, accumFrom, enterRun, MIN_RUN_MS]

/-! ### The claims -/

/-- Claim C1, counterexample: on the quiet block signal every frame —
hence every frame of the emitted run — is at most −125 dBFS, and
`round(−125, 2) = −125`, yet `detect_shout` reports `peak_dbfs = −120`:
the sentinel initialisation `peak_db = −120.0` combined with
`max(peak_db, db)` clips the reported peak from below, so the reported
peak is not the maximum dBFS observed within the run. -/
theorem c1_counterexample :
    (detectShout sigQuiet 16000).present = true ∧
    detectShout sigQuiet 16000 =
      emitResult 16000 (accumFrom 3200 (enterRun 3200 (mkStat sigQuiet 3200 4800))
        [mkStat sigQuiet 3200 6400, mkStat sigQuiet 3200 8000, mkStat sigQuiet 3200 9600,
         mkStat sigQuiet 3200 11200]) ∧
    runMaxDb (mkStat sigQuiet 3200 4800)
      [mkStat sigQuiet 3200 6400, mkStat sigQuiet 3200 8000, mkStat sigQuiet 3200 9600,
       mkStat sigQuiet 3200 11200] = -125 ∧
    pyRound2 ((-125:ℝ)) = -125 ∧
    (detectShout sigQuiet 16000).peak_dbfs = some (-120) := by
  refine ⟨by rw [detect_sigQuiet_eq]; rfl, detect_sigQuiet_eq, runMaxDb_sigQuiet,
    pyRound2_neg125, ?_⟩
  rw [detect_sigQuiet_eq]
  show some (pyRound2 (accumFrom 3200 (enterRun 3200 (mkStat sigQuiet 3200 4800))
    [mkStat sigQuiet 3200 6400, mkStat sigQuiet 3200 8000, mkStat sigQuiet 3200 9600,
     mkStat sigQuiet 3200 11200]).peak) = some (-120)
  rw [peak_sigQuiet, pyRound2_neg120]

/-- Claim C1 (amended): entering a run from idle sets the accumulator
peak to `max (−120) frame.dBFS` (−120.0 being the sentinel the source
initialises `peak_db` with), and an emitted mid-stream run reports
`peak_dbfs = round2 (max (−120) M)`, where `M` is the maximum of the
dBFS values of the run's frames (`runMaxDb`, shown here to be an upper
bound attained by one of the frames). -/
theorem c1_peak_amended (sr win : ℕ) (dyn : α) (s : FrameStat α)
    (rs : List (FrameStat α)) (b : FrameStat α) (rest : List (FrameStat α))
    (hq : ∀ t ∈ s :: rs, qualifies dyn t) (hb : ¬ qualifies dyn b)
    (hg : MIN_RUN_MS ≤ durationMs sr (accumFrom win (enterRun win s) rs)) :
    (∀ (u : FrameStat α) (l : List (FrameStat α)), qualifies dyn u →
      scanRuns sr win dyn (u :: l) none =
        scanRuns sr win dyn l (some ⟨u.idx, u.idx + win, max (-120) u.db⟩)) ∧
    (∀ t ∈ s :: rs, t.db ≤ runMaxDb s rs) ∧
    runMaxDb s rs ∈ (s :: rs).map (fun t => t.db) ∧
    (scanRuns sr win dyn ((s :: rs) ++ b :: rest) none).peak_dbfs =
      some (pyRound2 (max (-120) (runMaxDb s rs))) := by
  refine ⟨?_, ?_, ?_, ?_⟩
  · intro u l hqu
    exact scanRuns_cons_none_pos hqu sr win l
  · intro t ht
    rcases List.mem_cons.mp ht with rfl | ht
    · exact le_foldl_max _ _
    · exact mem_le_foldl_max (rs.map (fun t => t.db)) s.db t.db
        (List.mem_map_of_mem _ ht)
  · rcases foldl_max_choice (rs.map (fun t => t.db)) s.db with h | h
    · rw [List.map_cons]
      unfold runMaxDb
      rw [h]
      exact List.mem_cons_self _ _
    · rw [List.map_cons]
      exact List.mem_cons_of_mem _ h
  · rw [scanRuns_enter_block sr win hq, scanRuns_close_emit hb hg]
    show some (pyRound2 (accumFrom win (enterRun win s) rs).peak) = _
    rw [accumFrom_enter_peak]

/-- Witness for C1 (amended) at a concrete rational input: run of frames
at offsets 0, 1600, 3200 with dBFS 0, −3, −1 closed by a quiet frame. -/
theorem c1_peak_amended_witness :
    runMaxDb (⟨0, 0, 0⟩ : FrameStat ℚ) [⟨1600, -3, 0⟩, ⟨3200, -1, 5⟩] ∈
      ([(⟨0, 0, 0⟩ : FrameStat ℚ), ⟨1600, -3, 0⟩, ⟨3200, -1, 5⟩].map (fun t => t.db)) ∧
    (scanRuns 16000 3200 (-18:ℚ)
        ([(⟨0, 0, 0⟩ : FrameStat ℚ), ⟨1600, -3, 0⟩, ⟨3200, -1, 5⟩] ++
          [⟨4800, -100, 0⟩]) none).peak_dbfs =
      some (pyRound2 (max (-120)
        (runMaxDb (⟨0, 0, 0⟩ : FrameStat ℚ) [⟨1600, -3, 0⟩, ⟨3200, -1, 5⟩]))) :=
  ⟨(c1_peak_amended 16000 3200 (-18:ℚ) ⟨0, 0, 0⟩ [⟨1600, -3, 0⟩, ⟨3200, -1, 5⟩]
      ⟨4800, -100, 0⟩ [] (by decide) (by decide) gateQ_6400).2.2.1,
   (c1_peak_amended 16000 3200 (-18:ℚ) ⟨0, 0, 0⟩ [⟨1600, -3, 0⟩, ⟨3200, -1, 5⟩]
      ⟨4800, -100, 0⟩ [] (by decide) (by decide) gateQ_6400).2.2.2⟩

/-- Claim C2, counterexample: the aligned full-scale 300 ms segment
surrounded by 400 ms of digital silence yields `present = true`, not
`present = false`: the 200 ms windows straddling the segment edges are
loud and non-impulsive, so the detected run spans samples
[4800, 12800) — 500 ms — and clears the 400 ms gate. -/
theorem c2_counterexample : (detectShout sig300 16000).present = true :=
  detect_sig300_present

/-- Claim C2 (amended): with `MIN_RUN_MS = 400` at 16 kHz, a loud
non-impulsive segment of exactly 300 ms surrounded by silence yields
`present:true` (the windowed run spans 500 ms), and the same signal with
the segment extended to 450 ms also yields `present:true`. -/
theorem c2_duration_amended :
    (detectShout sig300 16000).present = true ∧
    (detectShout sig450 16000).present = true :=
  ⟨detect_sig300_present, detect_sig450_present⟩

/-- Claim C3: for every nonempty frame sequence the threshold used by
`detect_shout` is `dynamicThreshold = min(THRESH_DBFS, median_dBFS + 20)`
with `median_dBFS` the median over all frames of the buffer; a frame is
loud iff its dBFS is at least this threshold (together with the crest
condition, this is what `qualifies` tests), and the dynamic threshold
never exceeds the base threshold. -/
theorem c3_threshold (sig : List ℝ) (sr : ℕ) (h : statsOf sig sr ≠ []) :
    dynThresholdOf sig sr =
      min THRESH_DBFS (medianNp ((statsOf sig sr).map (fun s => s.db)) + 20) ∧
    dynThresholdOf sig sr ≤ THRESH_DBFS ∧
    detectShout sig sr =
      scanRuns sr (winOf sr) (dynThresholdOf sig sr) (statsOf sig sr) none ∧
    ∀ s : FrameStat ℝ,
      qualifies (dynThresholdOf sig sr) s ↔
        dynThresholdOf sig sr ≤ s.db ∧ s.crest < MAX_CREST_DB := by
  refine ⟨?_, min_le_left _ _, ?_, fun s => Iff.rfl⟩
  · unfold dynThresholdOf dynamicThreshold medianDb dbValues
    rw [if_neg (show ¬ (statsOf sig sr).map (fun s => s.db) = [] by
      rw [List.map_eq_nil_iff]; exact h)]
  · unfold detectShout
    rw [if_neg h]

/-- Witness for C3 on the one-window all-zero signal. -/
theorem c3_threshold_witness :
    dynThresholdOf (List.replicate 3200 (0:ℝ)) 16000 =
      min THRESH_DBFS (medianNp ((statsOf (List.replicate 3200 (0:ℝ)) 16000).map
        (fun s => s.db)) + 20) ∧
    dynThresholdOf (List.replicate 3200 (0:ℝ)) 16000 ≤ THRESH_DBFS ∧
    detectShout (List.replicate 3200 (0:ℝ)) 16000 =
      scanRuns 16000 (winOf 16000) (dynThresholdOf (List.replicate 3200 (0:ℝ)) 16000)
        (statsOf (List.replicate 3200 (0:ℝ)) 16000) none ∧
    ∀ s : FrameStat ℝ,
      qualifies (dynThresholdOf (List.replicate 3200 (0:ℝ)) 16000) s ↔
        dynThresholdOf (List.replicate 3200 (0:ℝ)) 16000 ≤ s.db ∧
          s.crest < MAX_CREST_DB :=
  c3_threshold (List.replicate 3200 (0:ℝ)) 16000
    (by rw [statsOf_rep3200]; exact List.cons_ne_nil _ _)

/-- Claim C4: an all-zero signal of any length of at least one window
(200 ms at 16 kHz, i.e. 3200 samples) yields `present:false`. -/
theorem c4_silence_invariant (n : ℕ) (h : 3200 ≤ n) :
    (detectShout (List.replicate n (0:ℝ)) 16000).present = false := by
  rw [detect_silence]; rfl

/-- Witness for C4 at exactly one window of silence. -/
theorem c4_silence_invariant_witness :
    (detectShout (List.replicate 3200 (0:ℝ)) 16000).present = false :=
  c4_silence_invariant 3200 (by norm_num)

/-- Claim C5: a run still open at the end of the frame sequence is
checked against the same duration gate (`durationMs ≥ MIN_RUN_MS`) and
emitted as a present result if it passes; in particular a buffer whose
qualifying frames run to the very end (no trailing quiet frame) is still
detected. -/
theorem c5_trailing_run (sr win : ℕ) (dyn : α) :
    (∀ r : RunState α, scanRuns sr win dyn [] (some r) =
      if MIN_RUN_MS ≤ durationMs sr r then emitResult sr r else absentResult) ∧
    (∀ r : RunState α, (emitResult sr r).present = true) ∧
    (∀ (s : FrameStat α) (rs : List (FrameStat α)),
      (∀ t ∈ s :: rs, qualifies dyn t) →
      scanRuns sr win dyn (s :: rs) none =
        if MIN_RUN_MS ≤ durationMs sr (accumFrom win (enterRun win s) rs)
        then emitResult sr (accumFrom win (enterRun win s) rs) else absentResult) := by
  refine ⟨fun r => scanRuns_nil_some sr win dyn r, fun r => rfl, ?_⟩
  intro s rs hq
  rw [← List.append_nil (s :: rs), scanRuns_enter_block sr win hq, scanRuns_nil_some]

/-- Witness for C5 at concrete rational inputs. -/
theorem c5_trailing_run_witness :
    scanRuns 16000 3200 (-18:ℚ) [] (some ⟨0, 6400, -3⟩) =
      (if MIN_RUN_MS ≤ durationMs 16000 (⟨0, 6400, -3⟩ : RunState ℚ)
       then emitResult 16000 (⟨0, 6400, -3⟩ : RunState ℚ) else absentResult) ∧
    scanRuns 16000 3200 (-18:ℚ)
        [(⟨0, 0, 0⟩ : FrameStat ℚ), ⟨1600, 0, 0⟩, ⟨3200, 0, 0⟩] none =
      (if MIN_RUN_MS ≤ durationMs 16000
          (accumFrom 3200 (enterRun 3200 (⟨0, 0, 0⟩ : FrameStat ℚ))
            [⟨1600, 0, 0⟩, ⟨3200, 0, 0⟩])
       then emitResult 16000 (accumFrom 3200 (enterRun 3200 (⟨0, 0, 0⟩ : FrameStat ℚ))
            [⟨1600, 0, 0⟩, ⟨3200, 0, 0⟩])
       else absentResult) :=
  ⟨(c5_trailing_run 16000 3200 (-18:ℚ)).1 ⟨0, 6400, -3⟩,
   (c5_trailing_run 16000 3200 (-18:ℚ)).2.2 ⟨0, 0, 0⟩ [⟨1600, 0, 0⟩, ⟨3200, 0, 0⟩]
     (by decide)⟩

/-- Claim C6: scanning in order, the first contiguous qualifying run that
clears the duration gate is emitted immediately — the result does not
depend on anything after the closing frame — while a closed run that
fails the gate is discarded and scanning resumes from idle; frames that
do not qualify are skipped while idle. -/
theorem c6_first_run_wins (sr win : ℕ) (dyn : α) :
    (∀ (pre : List (FrameStat α)), (∀ t ∈ pre, ¬ qualifies dyn t) →
      ∀ l, scanRuns sr win dyn (pre ++ l) none = scanRuns sr win dyn l none) ∧
    (∀ (s : FrameStat α) (rs : List (FrameStat α)) (b : FrameStat α)
        (rest rest2 : List (FrameStat α)),
      (∀ t ∈ s :: rs, qualifies dyn t) → ¬ qualifies dyn b →
      MIN_RUN_MS ≤ durationMs sr (accumFrom win (enterRun win s) rs) →
      scanRuns sr win dyn ((s :: rs) ++ b :: rest) none =
        emitResult sr (accumFrom win (enterRun win s) rs) ∧
      scanRuns sr win dyn ((s :: rs) ++ b :: rest) none =
        scanRuns sr win dyn ((s :: rs) ++ b :: rest2) none) ∧
    (∀ (s : FrameStat α) (rs : List (FrameStat α)) (b : FrameStat α)
        (rest : List (FrameStat α)),
      (∀ t ∈ s :: rs, qualifies dyn t) → ¬ qualifies dyn b →
      ¬ MIN_RUN_MS ≤ durationMs sr (accumFrom win (enterRun win s) rs) →
      scanRuns sr win dyn ((s :: rs) ++ b :: rest) none =
        scanRuns sr win dyn rest none) := by
  refine ⟨scanRuns_skip sr win, ?_, ?_⟩
  · intro s rs b rest rest2 hq hb hg
    constructor
    · rw [scanRuns_enter_block sr win hq, scanRuns_close_emit hb hg]
    · rw [scanRuns_enter_block sr win hq, scanRuns_close_emit hb hg,
        scanRuns_enter_block sr win hq, scanRuns_close_emit hb hg]
  · intro s rs b rest hq hb hg
    rw [scanRuns_enter_block sr win hq, scanRuns_close_discard hb hg]

/-- Witness for C6 at concrete rational inputs: a 400 ms run emits
regardless of the tail, and a 200 ms run is discarded. -/
theorem c6_first_run_wins_witness :
    scanRuns 16000 3200 (-18:ℚ)
        ([(⟨0, 0, 0⟩ : FrameStat ℚ), ⟨1600, 0, 0⟩, ⟨3200, 0, 0⟩] ++
          [⟨4800, -100, 0⟩, ⟨6400, 0, 0⟩]) none =
      emitResult 16000 (accumFrom 3200 (enterRun 3200 (⟨0, 0, 0⟩ : FrameStat ℚ))
        [⟨1600, 0, 0⟩, ⟨3200, 0, 0⟩]) ∧
    scanRuns 16000 3200 (-18:ℚ)
        ([(⟨0, 0, 0⟩ : FrameStat ℚ)] ++ [⟨1600, -100, 0⟩]) none =
      scanRuns 16000 3200 (-18:ℚ) [] none :=
  ⟨((c6_first_run_wins 16000 3200 (-18:ℚ)).2.1 ⟨0, 0, 0⟩
      [⟨1600, 0, 0⟩, ⟨3200, 0, 0⟩] ⟨4800, -100, 0⟩ [⟨6400, 0, 0⟩] []
      (by decide) (by decide) gateQ_6400').1,
   (c6_first_run_wins 16000 3200 (-18:ℚ)).2.2 ⟨0, 0, 0⟩ [] ⟨1600, -100, 0⟩ []
     (by decide) (by decide) gateQ_3200_fail⟩

/-- Claim C7: on any reference-bounded signal (as produced by
`to_mono_16k`, every sample in [−32768, 32768]), a present result has
`peak_dbfs ≤ 0` and `duration_seconds ≥ 0.4 = MIN_RUN_MS / 1000`. -/
theorem c7_present_bounds (sig : List ℝ) (hb : ∀ x ∈ sig, |x| ≤ 32768)
    (hp : (detectShout sig 16000).present = true) :
    ∃ p d : ℝ, (detectShout sig 16000).peak_dbfs = some p ∧ p ≤ 0 ∧
      (detectShout sig 16000).duration_seconds = some d ∧ (0.4:ℝ) ≤ d := by
  rcases detectShout_cases sig 16000 with habs | ⟨r, hg, hpk, heq⟩
  · rw [habs] at hp
    simp [absentResult] at hp
  · refine ⟨pyRound2 r.peak, pyRound2 ((durationMs 16000 r : ℝ)/1000),
      by rw [heq]; rfl, ?_, by rw [heq]; rfl, ?_⟩
    · apply pyRound2_nonpos
      rcases hpk with hpk | ⟨s, hs, hpk⟩
      · rw [hpk]; norm_num
      · rw [hpk]
        have := stats_db_le hb s hs
        linarith
    · have h400 : ((400:ℤ):ℝ) ≤ ((durationMs 16000 r : ℤ):ℝ) := by
        exact_mod_cast hg
      have h40 := pyRound2_ge (n := 40) (x := (durationMs 16000 r : ℝ)/1000)
        (by push_cast at h400 ⊢; linarith)
      calc (0.4:ℝ) = ((40:ℤ):ℝ)/100 := by norm_num
      _ ≤ _ := h40

/-- Witness for C7 on the 450 ms block signal. -/
theorem c7_present_bounds_witness :
    ∃ p d : ℝ, (detectShout sig450 16000).peak_dbfs = some p ∧ p ≤ 0 ∧
      (detectShout sig450 16000).duration_seconds = some d ∧ (0.4:ℝ) ≤ d :=
  c7_present_bounds sig450 (by
    intro x hx
    simp only [sig450, blockSig, List.mem_append, List.mem_replicate] at hx
    rcases hx with (⟨_, rfl⟩ | ⟨_, rfl⟩) | ⟨_, rfl⟩ <;> norm_num)
    detect_sig450_present

/-- Claim C8: a signal shorter than one window produces zero frames and
the absent result — no error — and that result is identical to the one
returned when frames exist but no run ever qualifies for the gate. -/
theorem c8_zero_frames (sig : List ℝ) (sr : ℕ) (h : sig.length < winOf sr)
    (sig2 : List ℝ) (sr2 : ℕ)
    (h2 : ∀ s ∈ statsOf sig2 sr2, ¬ qualifies (dynThresholdOf sig2 sr2) s) :
    detectShout sig sr = absentResult ∧
    (detectShout sig sr).present = false ∧
    detectShout sig sr = detectShout sig2 sr2 := by
  have ha := detectShout_short h
  have hb2 := detectShout_absent_of_no_qualify h2
  exact ⟨ha, by rw [ha]; rfl, by rw [ha, hb2]⟩

/-- Witness for C8: the empty signal versus one window of silence. -/
theorem c8_zero_frames_witness :
    detectShout ([] : List ℝ) 16000 = absentResult ∧
    (detectShout ([] : List ℝ) 16000).present = false ∧
    detectShout ([] : List ℝ) 16000 = detectShout (List.replicate 3200 (0:ℝ)) 16000 :=
  c8_zero_frames [] 16000 (by decide) (List.replicate 3200 (0:ℝ)) 16000
    silence_no_qualify

/-- Claim C9: whenever `detect_shout` returns a present result, the
millisecond fields satisfy `0 ≤ start_ms < end_ms` and
`end_ms − start_ms ≥ MIN_RUN_MS`, despite the three separately
truncating integer conversions. -/
theorem c9_ms_invariants (sig : List ℝ) (sr : ℕ) (hsr : 0 < sr)
    (hp : (detectShout sig sr).present = true) :
    ∃ a b : ℤ, (detectShout sig sr).start_ms = some a ∧
      (detectShout sig sr).end_ms = some b ∧
      0 ≤ a ∧ a < b ∧ MIN_RUN_MS ≤ b - a := by
  rcases detectShout_cases sig sr with habs | ⟨r, hg, _, heq⟩
  · rw [habs] at hp
    simp [absentResult] at hp
  · have hDpos : (0:ℤ) < durationMs sr r :=
      lt_of_lt_of_le (by norm_num [MIN_RUN_MS]) hg
    have hDnn : (0:ℝ) ≤ ((r.stop : ℝ) - (r.start : ℝ)) * 1000 / (sr : ℝ) :=
      nonneg_of_pyInt_pos hDpos
    have hS1 : (0:ℝ) ≤ (r.start : ℝ) * 1000 / (sr : ℝ) := by positivity
    have hS2 : (0:ℝ) ≤ (r.stop : ℝ) * 1000 / (sr : ℝ) := by positivity
    have hsum : (r.start : ℝ) * 1000 / (sr : ℝ) +
        ((r.stop : ℝ) - (r.start : ℝ)) * 1000 / (sr : ℝ) =
        (r.stop : ℝ) * 1000 / (sr : ℝ) := by ring
    have hflo := floor_add_floor_le ((r.start : ℝ) * 1000 / (sr : ℝ))
      (((r.stop : ℝ) - (r.start : ℝ)) * 1000 / (sr : ℝ))
    rw [hsum] at hflo
    have hgd : (400:ℤ) ≤ ⌊((r.stop : ℝ) - (r.start : ℝ)) * 1000 / (sr : ℝ)⌋ := by
      have hd : durationMs sr r = ⌊((r.stop : ℝ) - (r.start : ℝ)) * 1000 / (sr : ℝ)⌋ :=
        pyInt_of_nonneg hDnn
      have h400 : (400:ℤ) ≤ durationMs sr r := hg
      rw [hd] at h400
      exact h400
    refine ⟨pyInt ((r.start : ℝ) * 1000 / (sr : ℝ)),
      pyInt ((r.stop : ℝ) * 1000 / (sr : ℝ)),
      by rw [heq]; rfl, by rw [heq]; rfl, pyInt_nonneg hS1, ?_, ?_⟩
    · rw [pyInt_of_nonneg hS1, pyInt_of_nonneg hS2]
      omega
    · show (400:ℤ) ≤ _
      rw [pyInt_of_nonneg hS1, pyInt_of_nonneg hS2]
      omega

/-- Witness for C9 on the 450 ms block signal. -/
theorem c9_ms_invariants_witness :
    ∃ a b : ℤ, (detectShout sig450 16000).start_ms = some a ∧
      (detectShout sig450 16000).end_ms = some b ∧
      0 ≤ a ∧ a < b ∧ MIN_RUN_MS ≤ b - a :=
  c9_ms_invariants sig450 16000 (by norm_num) detect_sig450_present

/-- Claim C10: a `present:false` result carries `None` in every other
field; a `present:true` result carries values in all five fields, with
`confidence = 0.6`. -/
theorem c10_field_shape (sig : List ℝ) (sr : ℕ) :
    ((detectShout sig sr).present = false →
      (detectShout sig sr).start_ms = none ∧
      (detectShout sig sr).end_ms = none ∧
      (detectShout sig sr).peak_dbfs = none ∧
      (detectShout sig sr).duration_seconds = none ∧
      (detectShout sig sr).confidence = none) ∧
    ((detectShout sig sr).present = true →
      (∃ a, (detectShout sig sr).start_ms = some a) ∧
      (∃ b, (detectShout sig sr).end_ms = some b) ∧
      (∃ p, (detectShout sig sr).peak_dbfs = some p) ∧
      (∃ d, (detectShout sig sr).duration_seconds = some d) ∧
      (detectShout sig sr).confidence = some 0.6) := by
  rcases detectShout_cases sig sr with habs | ⟨r, _, _, heq⟩
  · constructor
    · intro _
      rw [habs]
      exact ⟨rfl, rfl, rfl, rfl, rfl⟩
    · intro hp
      rw [habs] at hp
      simp [absentResult] at hp
  · constructor
    · intro hp
      rw [heq] at hp
      simp [emitResult] at hp
    · intro _
      rw [heq]
      exact ⟨⟨_, rfl⟩, ⟨_, rfl⟩, ⟨_, rfl⟩, ⟨_, rfl⟩, rfl⟩

/-- Witness for C10: the empty signal (absent) and the 450 ms signal
(present). -/
theorem c10_field_shape_witness :
    ((detectShout ([] : List ℝ) 16000).start_ms = none ∧
     (detectShout ([] : List ℝ) 16000).end_ms = none ∧
     (detectShout ([] : List ℝ) 16000).peak_dbfs = none ∧
     (detectShout ([] : List ℝ) 16000).duration_seconds = none ∧
     (detectShout ([] : List ℝ) 16000).confidence = none) ∧
    (detectShout sig450 16000).confidence = some 0.6 :=
  ⟨(c10_field_shape [] 16000).1 (by rw [detectShout_short (by decide)]; rfl),
   ((c10_field_shape sig450 16000).2 detect_sig450_present).2.2.2.2⟩

end Shout
